import Mathlib

/-
  Verification of the resilient retrieval core of InstaDM-Saver
  (src/instagram_dm_saver/core/messages.py and utils/rate_limiter.py).

  The embedding models the untyped JSON payloads ("RawItem" of the spec)
  as a tree `Value` with its own list and dict spines, so that all
  functions are structurally recursive and evaluable by the kernel.
  Python dicts are modelled as insertion-ordered association lists with
  unique keys (JSON-parsed payloads never carry duplicate keys); the
  operations below implement Python's `d[k] = v` (replace in place, else
  append), `d.setdefault`, `del d[k]` and `k in d` on that representation.
  Python integers are `Int`; the sanitizer's `int(x / 1000)` is Python
  float true division followed by truncation, modelled bit-exactly
  below: the quotient is rounded to the nearest 53-bit-significand
  binary float (ties to even), and the `OverflowError` CPython raises
  when the rounded quotient reaches `2^1024` is modelled as the
  `none` case, which the sanitizer's bare `except` turns into
  returning the (converted) value unchanged.
-/

set_option maxRecDepth 4000

mutual

inductive Value where
  | vnull : Value
  | vbool : Bool → Value
  | vint : Int → Value
  | vstr : String → Value
  | vlist : VList → Value
  | vdict : VDict → Value

inductive VList where
  | nil : VList
  | cons : Value → VList → VList

inductive VDict where
  | nil : VDict
  | cons : String → Value → VDict → VDict

end

deriving instance DecidableEq for Value, VList, VDict

namespace VDict

/-- Python `d[key]` / `d.get(key)`: the value at `key`, if present. -/
def dlookup : VDict → String → Option Value
  | .nil, _ => none
  | .cons k v tl, key => if k = key then some v else dlookup tl key

/-- Python `key in d`. -/
def dmem (d : VDict) (key : String) : Bool :=
  (dlookup d key).isSome

/-- Python `d[key] = v`: replace the binding in place, else append at the end. -/
def dset : VDict → String → Value → VDict
  | .nil, key, v => .cons key v .nil
  | .cons k w tl, key, v =>
      if k = key then .cons k v tl else .cons k w (dset tl key v)

/-- Python `d.setdefault(key, v)`. -/
def dsetdefault (d : VDict) (key : String) (v : Value) : VDict :=
  if dmem d key then d else dset d key v

/-- Python `del d[key]` (for dicts with unique keys). -/
def ddelete : VDict → String → VDict
  | .nil, _ => .nil
  | .cons k v tl, key =>
      if k = key then ddelete tl key else .cons k v (ddelete tl key)

end VDict

namespace VList

def toList : VList → List Value
  | .nil => []
  | .cons v tl => v :: toList tl

def ofList : List Value → VList
  | [] => .nil
  | v :: tl => .cons v (ofList tl)

end VList

/-- Python truthiness of a JSON value (`if x:`). -/
def pyTruthy : Value → Bool
  | .vnull => false
  | .vbool b => b
  | .vint n => n ≠ 0
  | .vstr s => s ≠ ""
  | .vlist .nil => false
  | .vlist (.cons _ _) => true
  | .vdict .nil => false
  | .vdict (.cons _ _ _) => true

/-- `pat` is a prefix of `s` (character lists). -/
def prefixCh : List Char → List Char → Bool
  | [], _ => true
  | _ :: _, [] => false
  | c :: cs, d :: ds => c = d && prefixCh cs ds

/-- Python `pat in s` for strings: `pat` occurs as a contiguous substring. -/
def containsSub (pat : List Char) : List Char → Bool
  | [] => prefixCh pat []
  | c :: tl => prefixCh pat (c :: tl) || containsSub pat tl

/-- Python `s.lower()` (ASCII model). -/
def lowerChars (s : String) : List Char :=
  s.toList.map Char.toLower

/- ----------------------------------------------------------------
   Payload sanitizer (MessageManager in core/messages.py)
   ---------------------------------------------------------------- -/

/-- `limit_seconds = 253402300799` of `_normalize_timestamp_value`
(datetime max supported, year 9999). -/
def limit_seconds : Int := 253402300799

/-- `⌊log₂ n⌋` for `n ≥ 1`, through an explicit fuel argument so that
the kernel can evaluate it on literals (the fuel only has to cover the
number of halvings, and `n` itself always does). -/
def log2fuel : Nat → Nat → Nat
  | 0, _ => 0
  | fuel + 1, n => if n ≤ 1 then 0 else log2fuel fuel (n / 2) + 1

def blog2 (n : Nat) : Nat := log2fuel n n

/-- Round-half-to-even of the rational `a / b` to the nearest natural. -/
def rhe (a b : Nat) : Nat :=
  if 2 * (a % b) < b then a / b
  else if b < 2 * (a % b) then a / b + 1
  else if a / b % 2 = 0 then a / b else a / b + 1

/-- `2 ^ k ≤ a / b` for positive `a`, `b` and an integer `k`. -/
def pow2LeQuot (b a : Nat) (k : Int) : Bool :=
  if 0 ≤ k then b * 2 ^ k.toNat ≤ a else b ≤ a * 2 ^ (-k).toNat

/-- `⌊log₂ (a / b)⌋` for positive `a`, `b` (possibly negative): the
candidate `⌊log₂ a⌋ - ⌊log₂ b⌋` is off by at most one, fixed by an
exact comparison. -/
def floorLog2 (a b : Nat) : Int :=
  if pow2LeQuot b a ((blog2 a : Int) - (blog2 b : Int))
  then (blog2 a : Int) - (blog2 b : Int)
  else (blog2 a : Int) - (blog2 b : Int) - 1

/-- Python `int(a / b)` for positive ints `a`, `b`: the true quotient
is correctly rounded (to nearest, ties to even) to a float with a
53-bit significand `rhe`-scaled at exponent `⌊log₂ (a/b)⌋ - 52`, then
truncated toward zero; `none` models the `OverflowError` CPython
raises when the rounded quotient reaches `2^1024`.  (Quotients at the
sanitizer's call sites are ≥ 1, so the subnormal range never
arises.) -/
def py_float_div_int (a b : Nat) : Option Nat :=
  if 0 ≤ floorLog2 a b - 52 then
    if 2 ^ 1024 ≤ rhe a (b * 2 ^ (floorLog2 a b - 52).toNat) * 2 ^ (floorLog2 a b - 52).toNat
    then none
    else some (rhe a (b * 2 ^ (floorLog2 a b - 52).toNat) * 2 ^ (floorLog2 a b - 52).toNat)
  else
    if 2 ^ 1024 * 2 ^ (52 - floorLog2 a b).toNat ≤ rhe (a * 2 ^ (52 - floorLog2 a b).toNat) b
    then none
    else some (rhe (a * 2 ^ (52 - floorLog2 a b).toNat) b / 2 ^ (52 - floorLog2 a b).toNat)

/-- `int(normalized / 1000)` of `_normalize_timestamp_value` (only
reached when `normalized > limit_seconds > 0`); `none` is the raised
`OverflowError`. -/
def int_div1000 (n : Int) : Option Int :=
  match py_float_div_int n.toNat 1000 with
  | some m => some (m : Int)
  | none => none

/-- The `for _ in range(2)` loop of `_normalize_timestamp_value`:
divide by 1000 (at most twice) while the value exceeds
`limit_seconds`; `none` when a division raises. -/
def normalize_loop (n : Int) : Option Int :=
  if n ≤ limit_seconds then some n
  else
    match int_div1000 n with
    | none => none
    | some n1 =>
        if n1 ≤ limit_seconds then some n1
        else
          match int_div1000 n1 with
          | none => none
          | some n2 => some n2

/-- The numeric core of `_normalize_timestamp_value`: the loop, then
the clamp to `limit_seconds`; a raised `OverflowError` falls through
the bare `except` and the (converted) value is returned unchanged. -/
def normalize_int (n : Int) : Int :=
  match normalize_loop n with
  | some m => if limit_seconds < m then limit_seconds else m
  | none => n

/-- Python `s.isdigit()` (ASCII model). -/
def is_digit_string (s : String) : Bool :=
  s.toList ≠ [] && s.toList.all Char.isDigit

/-- Python `int(s)` for a digit string. -/
def int_of_digits (s : String) : Int :=
  s.toList.foldl (fun n c => n * 10 + ((c.toNat : Int) - 48)) 0

/-- `MessageManager._normalize_timestamp_value`.  Digit strings are
converted with `int`; ints (and Python bools, which are ints) run
through the divide/clamp loop; everything else is returned unchanged. -/
def normalize_timestamp_value : Value → Value
  | .vstr s => if is_digit_string s then .vint (normalize_int (int_of_digits s)) else .vstr s
  | .vint n => .vint (normalize_int n)
  | .vbool b => .vint (normalize_int (if b then 1 else 0))
  | v => v

/-- Python `isinstance(x, (int, float, str))` (bools are ints). -/
def is_num_or_str : Value → Bool
  | .vint _ => true
  | .vstr _ => true
  | .vbool _ => true
  | _ => false

/-- Python `"timestamp" in key`. -/
def contains_timestamp (key : String) : Bool :=
  containsSub "timestamp".toList key.toList

/-- The per-binding action of `_normalize_timestamps` on a dict entry
whose value has already been normalized recursively. -/
def norm_entry (key : String) (v : Value) : Value :=
  if is_num_or_str v && contains_timestamp key then normalize_timestamp_value v else v

mutual

/-- `MessageManager._normalize_timestamps`: recursively walk the value;
in dicts, after normalizing each value, apply the timestamp
normalization when the key contains "timestamp" and the value is
numeric or a string. -/
def normalize_timestamps : Value → Value
  | .vlist xs => .vlist (normalize_timestamps_list xs)
  | .vdict xs => .vdict (normalize_timestamps_dict xs)
  | v => v

def normalize_timestamps_list : VList → VList
  | .nil => .nil
  | .cons v tl => .cons (normalize_timestamps v) (normalize_timestamps_list tl)

def normalize_timestamps_dict : VDict → VDict
  | .nil => .nil
  | .cons k v tl => .cons k (norm_entry k (normalize_timestamps v)) (normalize_timestamps_dict tl)

end

/-- The zero-valued default `original_sound_info` synthesized by
`_clean_media_item`. -/
def defaultSoundInfo : Value :=
  .vdict (.cons "audio_id" (.vstr "")
    (.cons "original_audio_title" (.vstr "")
      (.cons "progressive_download_url" (.vstr "")
        (.cons "dash_manifest" (.vstr "")
          (.cons "ig_artist" (.vdict (.cons "username" (.vstr "") (.cons "pk" (.vint 0) .nil)))
            (.cons "duration_in_ms" (.vint 0)
              (.cons "is_explicit" (.vbool false) .nil)))))))

/-- The default `ig_artist` record. -/
def defaultArtist : Value :=
  .vdict (.cons "username" (.vstr "") (.cons "pk" (.vint 0) .nil))

/-- The `sound_info.setdefault(...)` chain plus the `ig_artist` repair of
`_clean_media_item`, on a present dict-valued `original_sound_info`. -/
def fixSoundInfo (si : VDict) : VDict :=
  let s1 := si.dsetdefault "audio_id" (.vstr "")
  let s2 := s1.dsetdefault "original_audio_title" (.vstr "")
  let s3 := s2.dsetdefault "progressive_download_url" (.vstr "")
  let s4 := s3.dsetdefault "dash_manifest" (.vstr "")
  let s5 := s4.dsetdefault "duration_in_ms" (.vint 0)
  let s6 := s5.dsetdefault "is_explicit" (.vbool false)
  match s6.dlookup "ig_artist" with
  | some (.vdict a) =>
      s6.dset "ig_artist" (.vdict ((a.dsetdefault "username" (.vstr "")).dsetdefault "pk" (.vint 0)))
  | some _ => s6.dset "ig_artist" defaultArtist
  | none => s6.dset "ig_artist" defaultArtist

/-- The `clips_metadata` repair of `_clean_media_item`: fix
`original_sound_info` when present, and drop `music_info` /
`template_info` when they are explicitly null. -/
def repairMetadata (ms : VDict) : VDict :=
  let m1 := match ms.dlookup "original_sound_info" with
    | none => ms
    | some (.vdict si) => ms.dset "original_sound_info" (.vdict (fixSoundInfo si))
    | some _ => ms.dset "original_sound_info" defaultSoundInfo
  let m2 := if m1.dlookup "music_info" = some .vnull then m1.ddelete "music_info" else m1
  if m2.dlookup "template_info" = some .vnull then m2.ddelete "template_info" else m2

/-- The access `clip_data["clips_metadata"]` with in-place repair,
rebuilt functionally: when the target is a dict holding a dict-valued
`clips_metadata`, replace it with the repaired metadata. -/
def repairAtTarget (t : Value) : Value :=
  match t with
  | .vdict zs =>
      match zs.dlookup "clips_metadata" with
      | some (.vdict ms) => .vdict (zs.dset "clips_metadata" (.vdict (repairMetadata ms)))
      | _ => t
  | _ => t

/-- `clip_data = cleaned["clip"]; if isinstance(clip_data, dict) and
"clip" in clip_data: clip_data = clip_data["clip"]` — repair at the
possibly double-nested position. -/
def repairClipValue (c : Value) : Value :=
  match c with
  | .vdict ys =>
      match ys.dlookup "clip" with
      | some inner => .vdict (ys.dset "clip" (repairAtTarget inner))
      | none => repairAtTarget c
  | _ => repairAtTarget c

/-- The clip/Reels metadata repair of `_clean_media_item` on the whole
item (Python mutates the nested dicts in place; here the path is
rebuilt, which is extensionally the same on tree-shaped payloads). -/
def repairClips (v : Value) : Value :=
  match v with
  | .vdict xs =>
      match xs.dlookup "clip" with
      | some c => .vdict (xs.dset "clip" (repairClipValue c))
      | none => v
  | _ => v

/-- `MessageManager._clean_media_item`: non-dicts are returned as they
are; dicts are deep-copied (implicit in a functional model), timestamp
normalized, then clip-repaired.  All the operations involved are total,
so the `except` branch returning `None` is unreachable and the result is
always `some`. -/
def clean_media_item (item : Value) : Option Value :=
  match item with
  | .vdict xs => some (repairClips (normalize_timestamps (.vdict xs)))
  | v => some v

/- ----------------------------------------------------------------
   Error-keyword classification (get_conversations / fetch_messages)
   ---------------------------------------------------------------- -/

/-- The schema-error keyword list of `MessageManager.get_conversations`. -/
def conversation_error_keywords : List String :=
  ["clips_metadata", "original_sound_info", "validationerror",
   "model_type", "input should be a valid dictionary"]

/-- The schema-error keyword list of `MessageManager.fetch_messages`. -/
def message_error_keywords : List String :=
  ["clips_metadata", "original_sound_info", "validationerror",
   "validation errors", "replymessage", "timestamp_us",
   "model_type", "unexpected keyword argument"]

/-- `any(keyword in str(e).lower() for keyword in kws)`. -/
def matches_keyword (kws : List String) (e : String) : Bool :=
  kws.any (fun k => containsSub k.toList (lowerChars e))

/-- `is_media_error` of `get_conversations`. -/
def is_media_error_conversations (e : String) : Bool :=
  matches_keyword conversation_error_keywords e

/-- `is_media_error` of `fetch_messages`. -/
def is_media_error_messages (e : String) : Bool :=
  matches_keyword message_error_keywords e

/- ----------------------------------------------------------------
   Upstream-call events.  `rateLimit` stands for one pass through
   `RateLimiter.__call__`'s wrapper (`wait_if_needed` + `add_call`);
   the other constructors are upstream requests.
   ---------------------------------------------------------------- -/

inductive Ev where
  | rateLimit : Ev
  | callDirectThreads : Int → Ev
  | callInbox : Ev
  | callDirectMessages : Int → Ev
  | callThreadItems : Nat → Ev

deriving instance DecidableEq for Ev

def Ev.isRateLimit : Ev → Bool
  | .rateLimit => true
  | _ => false

/-- Number of limiter admissions in a trace. -/
def countRateLimit (tr : List Ev) : Nat :=
  (tr.filter Ev.isRateLimit).length

/-- Number of upstream requests issued in a trace. -/
def countUpstream (tr : List Ev) : Nat :=
  (tr.filter (fun e => !e.isRateLimit)).length

/- ----------------------------------------------------------------
   Conversation retriever (get_conversations and its fallbacks)
   ---------------------------------------------------------------- -/

/-- The upstream collaborator of the conversation retriever: the typed
`client.direct_threads` call (by preview limit), the raw
`direct_v2/inbox/` request, and instagrapi's `extract_direct_thread`.
`α` is the opaque type of typed threads. -/
structure ConvApi (α : Type) where
  directThreads : Int → Except String (List α)
  inboxRequest : Except String Value
  extractThread : Value → Except String α

/-- The per-item cleaning of `_clean_thread_data`: keep the 20 most
recent entries, clean each, keep the truthy results. -/
def clean_items (items : List Value) : List Value :=
  (items.take 20).filterMap (fun it =>
    match clean_media_item it with
    | some c => if pyTruthy c then some c else none
    | none => none)

/-- `MessageManager._clean_thread_data`. -/
def clean_thread_data (td : Value) : Value :=
  match td with
  | .vdict xs =>
      match xs.dlookup "items" with
      | some (.vlist l) =>
          .vdict (xs.dset "items" (.vlist (VList.ofList (clean_items (VList.toList l)))))
      | _ => td
  | v => v

/-- Lines 140-144 of `_get_conversations_safe_api`: validate the inbox
response and read `result["inbox"].get("threads", [])`.  Shapes on
which Python would raise (member test or `.get` on a non-dict) are the
error case, absorbed by the surrounding `except`. -/
def inbox_threads (result : Value) : Except String (List Value) :=
  match result with
  | .vdict xs =>
      if ¬ pyTruthy (.vdict xs) then .error "Invalid inbox response"
      else match xs.dlookup "inbox" with
        | none => .error "Invalid inbox response"
        | some (.vdict ib) =>
            match ib.dlookup "threads" with
            | some (.vlist l) => .ok (VList.toList l)
            | some _ => .error "TypeError"
            | none => .ok []
        | some _ => .error "AttributeError"
  | v => if ¬ pyTruthy v then .error "Invalid inbox response" else .error "TypeError"

/-- `MessageManager._get_conversations_safe_api`: raw inbox request,
per-thread cleaning and typed extraction with skip-and-count; every
raise inside the `try` is re-wrapped by its own `except` with the
"Safe API method failed: " prefix. -/
def get_conversations_safe_api {α : Type} (api : ConvApi α) : Except String (List α) :=
  match api.inboxRequest with
  | .error e => .error ("Safe API method failed: " ++ e)
  | .ok result =>
      match inbox_threads result with
      | .error e => .error ("Safe API method failed: " ++ e)
      | .ok threadsData =>
          let safeThreads := threadsData.filterMap
            (fun td => (api.extractThread (clean_thread_data td)).toOption)
          if safeThreads.isEmpty then
            .error "Safe API method failed: No conversations could be processed"
          else .ok safeThreads

/-- `MessageManager._get_conversations_fallback`: minimal preview, no
preview, then the safe API method; returns `[]` when all three fail.
The second component is the list of upstream calls issued. -/
def get_conversations_fallback {α : Type} (api : ConvApi α) : List α × List Ev :=
  match api.directThreads 1 with
  | .ok threads => (threads, [.callDirectThreads 1])
  | .error _ =>
      match api.directThreads 0 with
      | .ok threads => (threads, [.callDirectThreads 1, .callDirectThreads 0])
      | .error _ =>
          match get_conversations_safe_api api with
          | .ok threads => (threads, [.callDirectThreads 1, .callDirectThreads 0, .callInbox])
          | .error _ => ([], [.callDirectThreads 1, .callDirectThreads 0, .callInbox])

/-- `MessageManager.get_conversations` (decorated with
`@instagram_rate_limiter`, hence the single leading `rateLimit` event):
typed listing, then keyword-gated fallback, else immediate propagation
as a `ConversationError` (errors are represented by their message). -/
def get_conversations {α : Type} (api : ConvApi α) (thread_message_limit : Int) :
    Except String (List α) × List Ev :=
  let tr0 : List Ev := [.rateLimit, .callDirectThreads thread_message_limit]
  match api.directThreads thread_message_limit with
  | .ok threads => (.ok threads, tr0)
  | .error e =>
      if is_media_error_conversations e then
        let fb := get_conversations_fallback api
        if fb.1.isEmpty then
          (.error "Could not fetch conversations due to problematic media. Try updating instagrapi or clearing problematic conversations.", tr0 ++ fb.2)
        else (.ok fb.1, tr0 ++ fb.2)
      else (.error ("Failed to fetch conversations: " ++ e), tr0)

/- ----------------------------------------------------------------
   Message retriever (fetch_messages and the safe batch method)
   ---------------------------------------------------------------- -/

/-- The upstream collaborator of the message retriever for one thread:
the typed `client.direct_messages` call (by amount), the raw paginated
`direct_v2/threads/{id}/` request (by limit and optional cursor), and
instagrapi's `extract_direct_message` (per-item failures are `none`).
`β` is the opaque type of typed messages. -/
structure MsgApi (β : Type) where
  directMessages : Int → Except String (List β)
  threadItems : Nat → Option Value → Except String Value
  extractMessage : Value → Option β

/-- Lines 423-428 of `_fetch_messages_safe_batch`: `ok none` models
`break` (falsy result, missing "thread" key, and — via `ok (some [])`
for a missing "items" key — an empty item list); the error case models
a raise absorbed by the batch `except`. -/
def thread_items (result : Value) : Except String (Option (List Value)) :=
  if ¬ pyTruthy result then .ok none
  else match result with
    | .vdict xs =>
        match xs.dlookup "thread" with
        | none => .ok none
        | some (.vdict ts) =>
            match ts.dlookup "items" with
            | some (.vlist l) => .ok (some (VList.toList l))
            | some _ => .error "TypeError"
            | none => .ok (some [])
        | some _ => .error "AttributeError"
    | _ => .error "TypeError"

/-- `if batch_size > 5: batch_size = max(5, batch_size // 2)`. -/
def halveBatch (bs : Nat) : Nat :=
  if 5 < bs then max 5 (bs / 2) else bs

/-- `if cursor: params["cursor"] = cursor` — the cursor is passed only
when truthy. -/
def cursorArg (c : Option Value) : Option Value :=
  match c with
  | some v => if pyTruthy v then some v else none
  | none => none

/-- `items[-1].get("item_id")`; `.get` on a non-dict raises (absorbed
by the batch `except` after the batch was already accumulated). -/
def last_item_id (items : List Value) : Except String (Option Value) :=
  match items.getLast? with
  | some (.vdict xs) => .ok (xs.dlookup "item_id")
  | some _ => .error "AttributeError"
  | none => .error "IndexError"

/-- The per-item body of the batch loop: clean, keep if truthy, then
typed extraction; any failure skips the item. -/
def clean_and_extract {β : Type} (api : MsgApi β) (item : Value) : Option β :=
  match clean_media_item item with
  | some c => if pyTruthy c then api.extractMessage c else none
  | none => none

/-- State of the `while` loop of `_fetch_messages_safe_batch`. -/
structure BState (β : Type) where
  acc : List β
  trace : List Ev
  cursor : Option Value
  remaining : Int
  fails : Nat
  batchSize : Nat

inductive StepRes (β : Type) where
  | done : List β × List Ev → StepRes β
  | next : BState β → StepRes β

/-- One iteration of the `while` loop of `_fetch_messages_safe_batch`
(lines 413-460): `done` are the `break`s and the loop-guard exit,
`next` continues with the updated state.  The guard is
`remaining > 0 and len(all_messages) < count and consecutive_failures < 3`. -/
def safe_batch_step {β : Type} (api : MsgApi β) (count : Int) (s : BState β) : StepRes β :=
  if 0 < s.remaining ∧ (s.acc.length : Int) < count ∧ s.fails < 3 then
    let cbs := min s.batchSize s.remaining.toNat
    let tr := s.trace ++ [Ev.callThreadItems cbs]
    match api.threadItems cbs (cursorArg s.cursor) with
    | .error _ =>
        .next { s with trace := tr, fails := s.fails + 1, batchSize := halveBatch s.batchSize }
    | .ok result =>
        match thread_items result with
        | .error _ =>
            .next { s with trace := tr, fails := s.fails + 1, batchSize := halveBatch s.batchSize }
        | .ok none => .done (s.acc, tr)
        | .ok (some items) =>
            if items.isEmpty then .done (s.acc, tr)
            else
              let batch := items.filterMap (clean_and_extract api)
              if batch.isEmpty then
                .next { s with trace := tr, fails := s.fails + 1, batchSize := halveBatch s.batchSize }
              else
                match last_item_id items with
                | .ok cur =>
                    .next { s with acc := s.acc ++ batch, trace := tr, cursor := cur,
                                   remaining := s.remaining - batch.length, fails := 0 }
                | .error _ =>
                    .next { s with acc := s.acc ++ batch, trace := tr,
                                   remaining := s.remaining - batch.length,
                                   fails := s.fails + 1, batchSize := halveBatch s.batchSize }
  else .done (s.acc, s.trace)

/-- Termination measure: a successful batch strictly shrinks
`remaining`, a failed one raises `fails` toward the cut-off of 3. -/
def bmeasure {β : Type} (s : BState β) : Nat :=
  s.remaining.toNat * 3 + (3 - s.fails)

/-- The `while` loop of `_fetch_messages_safe_batch`. -/
def safe_batch_loop {β : Type} (api : MsgApi β) (count : Int) (s : BState β) : List β × List Ev :=
  match h : safe_batch_step api count s with
  | .done out => out
  | .next s' => safe_batch_loop api count s'
termination_by bmeasure s
decreasing_by
  simp only [safe_batch_step] at h
  split at h
  case isFalse => exact absurd h (by simp)
  case isTrue hg =>
    obtain ⟨hrem, -, hfails⟩ := hg
    split at h
    case h_1 =>
      cases h
      simp only [bmeasure]
      omega
    case h_2 =>
      split at h
      case h_1 =>
        cases h
        simp only [bmeasure]
        omega
      case h_2 => exact absurd h (by simp)
      case h_3 =>
        split at h
        case isTrue => exact absurd h (by simp)
        case isFalse =>
          split at h
          case isTrue =>
            cases h
            simp only [bmeasure]
            omega
          case isFalse hb =>
            rename_i items heq hne
            have hlen : 0 < (List.filterMap (clean_and_extract api) items).length := by
              have hnil : ¬ (List.filterMap (clean_and_extract api) items) = [] := by
                simpa [List.isEmpty_iff] using hb
              exact List.length_pos.mpr hnil
            split at h
            case h_1 =>
              cases h
              simp only [bmeasure]
              omega
            case h_2 =>
              cases h
              simp only [bmeasure]
              omega

/-- `MessageManager._fetch_messages_safe_batch` (initial state:
no cursor, `remaining = count`, no failures, `batch_size = 20`),
threading the event trace of the enclosing call. -/
def fetch_messages_safe_batch {β : Type} (api : MsgApi β) (count : Int) (tr : List Ev) :
    List β × List Ev :=
  safe_batch_loop api count
    { acc := [], trace := tr, cursor := none, remaining := count, fails := 0, batchSize := 20 }

/-- The `except` branch of `fetch_messages` (lines 362-386): keyword
match routes to the safe batch method (whose result, even empty, is
returned normally); anything else propagates as `MessageFetchError`. -/
def fetch_messages_handler {β : Type} (api : MsgApi β) (count : Int) (tr : List Ev) (e : String) :
    Except String (List β) × List Ev :=
  if is_media_error_messages e then
    let r := fetch_messages_safe_batch api count tr
    (.ok r.1, r.2)
  else (.error ("Failed to fetch messages: " ++ e), tr)

/-- `MessageManager.fetch_messages` (decorated with
`@instagram_rate_limiter`): typed test call for `min(10, count)`
messages, full typed call when more are wanted, and the keyword-gated
handler for every raise inside the `try` — including its own
`MessageFetchError("No messages returned from test fetch")` on an
empty test result. -/
def fetch_messages {β : Type} (api : MsgApi β) (count : Int) :
    Except String (List β) × List Ev :=
  let tr0 : List Ev := [.rateLimit, .callDirectMessages (min 10 count)]
  match api.directMessages (min 10 count) with
  | .ok test =>
      if test.isEmpty then
        fetch_messages_handler api count tr0 "No messages returned from test fetch"
      else if count ≤ 10 then (.ok test, tr0)
      else
        match api.directMessages count with
        | .ok messages => (.ok messages, tr0 ++ [.callDirectMessages count])
        | .error e => fetch_messages_handler api count (tr0 ++ [.callDirectMessages count]) e
  | .error e => fetch_messages_handler api count tr0 e

/- ----------------------------------------------------------------
   Claim-side definitions: the spec's wording of the timestamp
   algorithm (for the refinement claim C3), accessors, and concrete
   upstream behaviours used as test inputs.
   ---------------------------------------------------------------- -/

/-- The spec's timestamp algorithm, stated from its words: divide by
1000 at most twice, each time only while the value still exceeds the
maximum representable epoch-seconds value; if still out of range after
two divisions, clamp to that maximum. -/
def spec_normalize_timestamp (n : Int) : Int :=
  let n1 := if limit_seconds < n then n / 1000 else n
  let n2 := if limit_seconds < n1 then n1 / 1000 else n1
  if limit_seconds < n2 then limit_seconds else n2

def is_vdict : Value → Bool
  | .vdict _ => true
  | _ => false

/-- Accessor for the `original_sound_info` entry under the
single-nested clip path of an item. -/
def clip_metadata_sound_info (v : Value) : Option Value :=
  match v with
  | .vdict xs =>
      match xs.dlookup "clip" with
      | some (.vdict ys) =>
          match ys.dlookup "clips_metadata" with
          | some (.vdict ms) => ms.dlookup "original_sound_info"
          | _ => none
      | _ => none
  | _ => none

/-- A clip item whose `clips_metadata` mapping has no
`original_sound_info` key at all. -/
def c4_item : Value :=
  .vdict (.cons "clip" (.vdict (.cons "clips_metadata" (.vdict .nil) .nil)) .nil)

/-- A raw message item carrying an id and a position marker. -/
def mkItem (i : Nat) : Value :=
  .vdict (.cons "item_id" (.vstr (toString i)) (.cons "idx" (.vint i) .nil))

/-- Twenty raw items, as returned per call by the mocked endpoint of
the safe-batch scenario. -/
def items20 : List Value :=
  (List.range 20).map mkItem

/-- A raw `direct_v2/threads/{id}/` response carrying `items20`. -/
def batchResult20 : Value :=
  .vdict (.cons "thread" (.vdict (.cons "items" (.vlist (VList.ofList items20)) .nil)) .nil)

/-- The mocked upstream of the safe-batch scenario: every raw request
returns the same 20 items regardless of the requested limit, and typed
parsing fails on every 3rd item. -/
def api20 : MsgApi Value where
  directMessages := fun _ => .error "unused"
  threadItems := fun _ _ => .ok batchResult20
  extractMessage := fun v =>
    match v with
    | .vdict xs =>
        match xs.dlookup "idx" with
        | some (.vint n) => if (n + 1) % 3 = 0 then none else some v
        | _ => some v
    | _ => some v

/-- An upstream whose raw paginated endpoint always raises. -/
def apiAllFail : MsgApi Value where
  directMessages := fun _ => .error "boom"
  threadItems := fun _ _ => .error "boom"
  extractMessage := fun _ => none

/-- An upstream yielding one two-item batch and then an empty page. -/
def apiPartial : MsgApi Value where
  directMessages := fun _ => .error "unused"
  threadItems := fun _ c =>
    match c with
    | none => .ok (.vdict (.cons "thread"
        (.vdict (.cons "items" (.vlist (VList.ofList [mkItem 0, mkItem 100])) .nil)) .nil))
    | some _ => .ok .vnull
  extractMessage := fun v => some v

/-- A conversation upstream whose tier-1 listing fails with a schema
error and whose preview-1 listing succeeds. -/
def convApiTier2 : ConvApi Nat where
  directThreads := fun lim =>
    if lim = 1 then .ok [7]
    else .error "ValidationError: 1 validation error for DirectThread"
  inboxRequest := .error "unused"
  extractThread := fun _ => .error "unused"

/-- A conversation upstream that always fails with a non-schema error. -/
def convApiTimeout : ConvApi Nat where
  directThreads := fun _ => .error "NetworkTimeout"
  inboxRequest := .error "unused"
  extractThread := fun _ => .error "unused"

/-- A message upstream whose typed call succeeds with an empty list. -/
def emptyMsgApi : MsgApi Nat where
  directMessages := fun _ => .ok []
  threadItems := fun _ _ => .error "unused"
  extractMessage := fun _ => none

/-- Fuelled reference evaluator for the safe batch loop, used to
evaluate it on concrete upstream behaviours (the loop itself is
defined by well-founded recursion and does not reduce). -/
def safe_batch_run {β : Type} (api : MsgApi β) (count : Int) :
    Nat → BState β → Option (List β × List Ev)
  | 0, _ => none
  | fuel + 1, s =>
      match safe_batch_step api count s with
      | .done out => some out
      | .next s' => safe_batch_run api count fuel s'

/-- An upstream returning full batches whose items never parse. -/
def apiNoParse : MsgApi Value where
  directMessages := fun _ => .error "unused"
  threadItems := fun _ _ => .ok batchResult20
  extractMessage := fun _ => none

/- ----------------------------------------------------------------
   Dictionary lemmas
   ---------------------------------------------------------------- -/

namespace VDict

theorem dlookup_dset_self : ∀ (d : VDict) (k : String) (v : Value),
    (d.dset k v).dlookup k = some v
  | .nil, k, v => by simp [dset, dlookup]
  | .cons k' w tl, k, v => by
      by_cases h : k' = k
      · simp [dset, dlookup, h]
      · simp [dset, dlookup, h, dlookup_dset_self tl k v]

theorem dlookup_dset_ne : ∀ (d : VDict) {k k' : String} (v : Value), k' ≠ k →
    (d.dset k v).dlookup k' = d.dlookup k'
  | .nil, k, k', v, h => by simp [dset, dlookup, Ne.symm h]
  | .cons k0 w tl, k, k', v, h => by
      by_cases h0 : k0 = k
      · subst h0
        simp [dset, dlookup, Ne.symm h]
      · simp [dset, dlookup, h0, dlookup_dset_ne tl v h]

theorem dset_dset_self : ∀ (d : VDict) (k : String) (v w : Value),
    (d.dset k v).dset k w = d.dset k w
  | .nil, k, v, w => by simp [dset]
  | .cons k' u tl, k, v, w => by
      by_cases h : k' = k
      · simp [dset, h]
      · simp [dset, h, dset_dset_self tl k v w]

theorem dset_eq_self_of_dlookup : ∀ (d : VDict) {k : String} {v : Value},
    d.dlookup k = some v → d.dset k v = d
  | .nil, k, v, h => by simp [dlookup] at h
  | .cons k' w tl, k, v, h => by
      by_cases h0 : k' = k
      · subst h0
        simp [dlookup] at h
        simp [dset, h]
      · simp [dlookup, h0] at h
        simp [dset, h0, dset_eq_self_of_dlookup tl h]

theorem dlookup_ddelete_self : ∀ (d : VDict) (k : String),
    (d.ddelete k).dlookup k = none
  | .nil, k => by simp [ddelete, dlookup]
  | .cons k' w tl, k => by
      by_cases h : k' = k
      · simp [ddelete, h, dlookup_ddelete_self tl k]
      · simp [ddelete, dlookup, h, dlookup_ddelete_self tl k]

theorem dlookup_ddelete_ne : ∀ (d : VDict) {k k' : String}, k' ≠ k →
    (d.ddelete k).dlookup k' = d.dlookup k'
  | .nil, k, k', h => by simp [ddelete]
  | .cons k0 w tl, k, k', h => by
      by_cases h0 : k0 = k
      · subst h0
        simp [ddelete, dlookup, Ne.symm h, dlookup_ddelete_ne tl h]
      · simp [ddelete, dlookup, h0, dlookup_ddelete_ne tl h]

theorem dsetdefault_of_mem (d : VDict) {k : String} (v : Value)
    (h : (d.dlookup k).isSome) : d.dsetdefault k v = d := by
  simp [dsetdefault, dmem, h]

theorem dlookup_dsetdefault_self (d : VDict) (k : String) (v : Value) :
    (d.dsetdefault k v).dlookup k = some ((d.dlookup k).getD v) := by
  unfold dsetdefault dmem
  cases h : d.dlookup k with
  | none => simp [h, dlookup_dset_self]
  | some w => simp [h]

theorem dlookup_dsetdefault_ne (d : VDict) {k k' : String} (v : Value) (h : k' ≠ k) :
    (d.dsetdefault k v).dlookup k' = d.dlookup k' := by
  unfold dsetdefault
  split
  · rfl
  · exact dlookup_dset_ne d v h

theorem isSome_dlookup_dsetdefault (d : VDict) {k' : String} (k : String) (v : Value)
    (h : (d.dlookup k').isSome) : ((d.dsetdefault k v).dlookup k').isSome := by
  by_cases hk : k' = k
  · subst hk
    simp [dlookup_dsetdefault_self]
  · rw [dlookup_dsetdefault_ne d v hk]
    exact h

theorem isSome_dlookup_dset (d : VDict) {k' : String} (k : String) (v : Value)
    (h : (d.dlookup k').isSome) : ((d.dset k v).dlookup k').isSome := by
  by_cases hk : k' = k
  · subst hk
    simp [dlookup_dset_self]
  · rw [dlookup_dset_ne d v hk]
    exact h

end VDict

/- ----------------------------------------------------------------
   Timestamp normalization: idempotence and fixed points
   ---------------------------------------------------------------- -/

theorem log2fuel_spec : ∀ (fuel n : Nat), n ≤ fuel → 0 < n →
    2 ^ log2fuel fuel n ≤ n ∧ n < 2 ^ (log2fuel fuel n + 1)
  | 0, n, hle, hpos => absurd hpos (by omega)
  | fuel + 1, n, hle, hpos => by
      by_cases h1 : n ≤ 1
      · have hn : n = 1 := by omega
        subst hn
        simp only [log2fuel, if_pos (by omega : 1 ≤ 1)]
        decide
      · have h2 : 2 ≤ n := by omega
        have hrec := log2fuel_spec fuel (n / 2) (by omega) (by omega)
        simp only [log2fuel, if_neg h1]
        set k := log2fuel fuel (n / 2) with hk
        have e1 : 2 ^ (k + 1) = 2 * 2 ^ k := by ring
        have e2 : 2 ^ (k + 1 + 1) = 2 * 2 ^ (k + 1) := by ring
        omega

theorem blog2_spec {n : Nat} (h : 0 < n) : 2 ^ blog2 n ≤ n ∧ n < 2 ^ (blog2 n + 1) :=
  log2fuel_spec n n le_rfl h

/-- On an exact multiple the rounding never fires: `rhe` is plain
division. -/
theorem rhe_exact {a b : Nat} (hb : 0 < b) (hd : b ∣ a) : rhe a b = a / b := by
  obtain ⟨c, rfl⟩ := hd
  simp [rhe, Nat.mul_mod_right, hb]

/-- A quotient below `2 ^ 53` keeps the float exponent at or below
52, so the rounded significand scale never discards low bits of an
exact quotient. -/
theorem floorLog2_le {b q : Nat} (hb : 0 < b) (hq1 : 0 < q) (hq2 : q < 2 ^ 53) :
    floorLog2 (b * q) b ≤ 52 := by
  have ha : 0 < b * q := Nat.mul_pos hb hq1
  obtain ⟨hb1, hb2⟩ := blog2_spec hb
  obtain ⟨ha1, ha2⟩ := blog2_spec ha
  have hc : (blog2 (b * q) : Int) ≤ (blog2 b : Int) + 53 := by
    by_contra hcon
    push_neg at hcon
    have h54 : blog2 b + 54 ≤ blog2 (b * q) := by omega
    have hmono : (2 : Nat) ^ (blog2 b + 54) ≤ 2 ^ blog2 (b * q) :=
      Nat.pow_le_pow_right (by norm_num) h54
    have hlt : b * q < 2 ^ (blog2 b + 1) * 2 ^ 53 := by
      calc b * q < 2 ^ (blog2 b + 1) * q := (Nat.mul_lt_mul_right hq1).mpr hb2
        _ ≤ 2 ^ (blog2 b + 1) * 2 ^ 53 := Nat.mul_le_mul_left _ (by omega)
    rw [← pow_add] at hlt
    rw [show blog2 b + 1 + 53 = blog2 b + 54 from by omega] at hlt
    omega
  unfold floorLog2
  cases hP : pow2LeQuot b (b * q) ((blog2 (b * q) : Int) - (blog2 b : Int)) with
  | false => simp only [Bool.false_eq_true, if_false]; omega
  | true =>
      simp only [if_true]
      unfold pow2LeQuot at hP
      have hc0 : (0 : Int) ≤ (blog2 (b * q) : Int) - (blog2 b : Int) := by
        have hble : b ≤ b * q := Nat.le_mul_of_pos_right b hq1
        have h2 : (2 : Nat) ^ blog2 b < 2 ^ (blog2 (b * q) + 1) := by omega
        have h3 := (Nat.pow_lt_pow_iff_right (by norm_num : 1 < 2)).mp h2
        omega
      rw [if_pos hc0] at hP
      simp only [decide_eq_true_eq] at hP
      have h1 : 2 ^ ((blog2 (b * q) : Int) - (blog2 b : Int)).toNat ≤ q :=
        Nat.le_of_mul_le_mul_left hP hb
      have h2 : ((blog2 (b * q) : Int) - (blog2 b : Int)).toNat < 53 := by
        by_contra hcon
        push_neg at hcon
        have : (2 : Nat) ^ 53 ≤ 2 ^ ((blog2 (b * q) : Int) - (blog2 b : Int)).toNat :=
          Nat.pow_le_pow_right (by norm_num) hcon
        omega
      omega

/-- The float division is exact on exact quotients below `2 ^ 53`:
every such quotient is representable, so rounding and truncation both
vanish. -/
theorem py_float_div_int_exact {a b : Nat} (hb : 0 < b) (hd : b ∣ a) (hq1 : 0 < a / b)
    (hq2 : a / b < 2 ^ 53) : py_float_div_int a b = some (a / b) := by
  obtain ⟨q, rfl⟩ := hd
  rw [Nat.mul_div_cancel_left q hb] at hq1 hq2 ⊢
  have hfle := floorLog2_le hb hq1 hq2
  have h53 : (2 : Nat) ^ 53 ≤ 2 ^ 1024 := Nat.pow_le_pow_right (by norm_num) (by norm_num)
  unfold py_float_div_int
  by_cases hge : (0 : Int) ≤ floorLog2 (b * q) b - 52
  · have hf : floorLog2 (b * q) b = 52 := by omega
    rw [if_pos hge, hf]
    rw [show ((52 : Int) - 52).toNat = 0 from by decide]
    simp only [pow_zero, mul_one]
    rw [rhe_exact hb ⟨q, rfl⟩, Nat.mul_div_cancel_left q hb]
    rw [if_neg (by omega : ¬ (2 ^ 1024 ≤ q))]
  · rw [if_neg hge]
    set m := ((52 : Int) - floorLog2 (b * q) b).toNat with hm
    have hdvd : b ∣ b * q * 2 ^ m := ⟨q * 2 ^ m, by ring⟩
    rw [rhe_exact hb hdvd]
    rw [show b * q * 2 ^ m / b = q * 2 ^ m from by rw [mul_assoc, Nat.mul_div_cancel_left _ hb]]
    have hmpos : 0 < 2 ^ m := pow_pos (by norm_num) m
    have hno : ¬ (2 ^ 1024 * 2 ^ m ≤ q * 2 ^ m) := by
      push_neg
      exact Nat.mul_lt_mul_of_lt_of_le (by omega) le_rfl hmpos
    rw [if_neg hno, Nat.mul_div_cancel q hmpos]

/-- `int(x / 1000)` recovers `s` exactly from a product `s * 1000`
whenever `s` fits in the 53-bit significand. -/
theorem int_div1000_exact {s : Nat} (h1 : 0 < s) (h2 : s < 2 ^ 53) :
    int_div1000 ((s : Int) * 1000) = some (s : Int) := by
  unfold int_div1000
  have ht : ((s : Int) * 1000).toNat = s * 1000 := by omega
  rw [ht]
  have hdvd : (1000 : Nat) ∣ s * 1000 := ⟨s, by ring⟩
  have hdiv : s * 1000 / 1000 = s := Nat.mul_div_cancel s (by norm_num)
  rw [py_float_div_int_exact (by norm_num) hdvd (by rw [hdiv]; exact h1) (by rw [hdiv]; exact h2),
    hdiv]

/-- The sanitizer's numeric result is in range unless the overflow
path returned the input unchanged. -/
theorem normalize_int_cases (n : Int) :
    normalize_int n ≤ limit_seconds ∨ normalize_int n = n := by
  unfold normalize_int
  cases h : normalize_loop n with
  | none => right; rfl
  | some m =>
      left
      by_cases hm : limit_seconds < m
      · simp [hm]
      · simp only [if_neg hm]
        exact not_lt.mp hm

theorem normalize_int_of_le {n : Int} (h : n ≤ limit_seconds) : normalize_int n = n := by
  simp [normalize_int, normalize_loop, h, not_lt.mpr h]

theorem normalize_int_idem (n : Int) : normalize_int (normalize_int n) = normalize_int n := by
  rcases normalize_int_cases n with h | h
  · exact normalize_int_of_le h
  · rw [h]
    exact h

theorem ntv_idem (v : Value) :
    normalize_timestamp_value (normalize_timestamp_value v) = normalize_timestamp_value v := by
  cases v with
  | vstr s =>
      by_cases h : is_digit_string s
      · simp [normalize_timestamp_value, h, normalize_int_idem]
      · simp [normalize_timestamp_value, h]
  | vint n => simp [normalize_timestamp_value, normalize_int_idem]
  | vbool b => simp [normalize_timestamp_value, normalize_int_idem]
  | vnull => rfl
  | vlist xs => rfl
  | vdict xs => rfl

theorem is_num_or_str_ntv (v : Value) (h : is_num_or_str v = true) :
    is_num_or_str (normalize_timestamp_value v) = true := by
  cases v with
  | vstr s =>
      by_cases hd : is_digit_string s
      · simp [normalize_timestamp_value, hd, is_num_or_str]
      · simp [normalize_timestamp_value, hd, is_num_or_str]
  | vint n => simp [normalize_timestamp_value, is_num_or_str]
  | vbool b => simp [normalize_timestamp_value, is_num_or_str]
  | vnull => simp [is_num_or_str] at h
  | vlist xs => simp [is_num_or_str] at h
  | vdict xs => simp [is_num_or_str] at h

theorem nts_atom (v : Value) (h : is_num_or_str v = true) : normalize_timestamps v = v := by
  cases v with
  | vint n => rfl
  | vstr s => rfl
  | vbool b => rfl
  | vnull => simp [is_num_or_str] at h
  | vlist xs => simp [is_num_or_str] at h
  | vdict xs => simp [is_num_or_str] at h

/-- Applying the per-entry normalization twice is the same as applying
it once, given idempotence of the recursive walk on the value. -/
theorem norm_entry_stable_of (v : Value) (k : String)
    (hv : normalize_timestamps (normalize_timestamps v) = normalize_timestamps v) :
    norm_entry k (normalize_timestamps (norm_entry k (normalize_timestamps v))) =
      norm_entry k (normalize_timestamps v) := by
  by_cases hg : (is_num_or_str (normalize_timestamps v) && contains_timestamp k) = true
  · have hg2 : is_num_or_str (normalize_timestamps v) = true ∧ contains_timestamp k = true := by
      simpa using hg
    obtain ⟨ha, ht⟩ := hg2
    have h1 : norm_entry k (normalize_timestamps v) =
        normalize_timestamp_value (normalize_timestamps v) := by
      simp [norm_entry, hg]
    have hatom : is_num_or_str (normalize_timestamp_value (normalize_timestamps v)) = true :=
      is_num_or_str_ntv _ ha
    rw [h1, nts_atom _ hatom]
    simp [norm_entry, hatom, ht, ntv_idem]
  · have h1 : norm_entry k (normalize_timestamps v) = normalize_timestamps v := by
      simp only [norm_entry]
      rw [if_neg (by simpa using hg)]
    rw [h1, hv, h1]

mutual

theorem nts_idem : ∀ v : Value,
    normalize_timestamps (normalize_timestamps v) = normalize_timestamps v
  | .vnull => rfl
  | .vbool _ => rfl
  | .vint _ => rfl
  | .vstr _ => rfl
  | .vlist xs => by simp [normalize_timestamps, ntsl_idem xs]
  | .vdict xs => by simp [normalize_timestamps, ntsd_idem xs]

theorem ntsl_idem : ∀ xs : VList,
    normalize_timestamps_list (normalize_timestamps_list xs) = normalize_timestamps_list xs
  | .nil => rfl
  | .cons v tl => by simp [normalize_timestamps_list, nts_idem v, ntsl_idem tl]

theorem ntsd_idem : ∀ xs : VDict,
    normalize_timestamps_dict (normalize_timestamps_dict xs) = normalize_timestamps_dict xs
  | .nil => rfl
  | .cons k v tl => by
      simp only [normalize_timestamps_dict, VDict.cons.injEq, true_and]
      exact ⟨norm_entry_stable_of v k (nts_idem v), ntsd_idem tl⟩

end

/-- A dict entry left unchanged by normalization has a value that is a
fixed point of both the walk and the per-entry action. -/
theorem norm_entry_elim {k : String} {v : Value}
    (h : norm_entry k (normalize_timestamps v) = v) :
    normalize_timestamps v = v ∧ norm_entry k v = v := by
  by_cases hg : (is_num_or_str (normalize_timestamps v) && contains_timestamp k) = true
  · have hg2 : is_num_or_str (normalize_timestamps v) = true ∧ contains_timestamp k = true := by
      simpa using hg
    obtain ⟨ha, ht⟩ := hg2
    have h2 : norm_entry k (normalize_timestamps v) =
        normalize_timestamp_value (normalize_timestamps v) := by
      simp [norm_entry, hg]
    rw [h2] at h
    have hatom : is_num_or_str v = true := by
      rw [← h]
      exact is_num_or_str_ntv _ ha
    have hnv : normalize_timestamps v = v := nts_atom v hatom
    refine ⟨hnv, ?_⟩
    rw [hnv] at h
    simp [norm_entry, hatom, ht, h.symm ▸ ntv_idem v, h]
  · have h2 : norm_entry k (normalize_timestamps v) = normalize_timestamps v := by
      simp only [norm_entry]
      rw [if_neg (by simpa using hg)]
    rw [h2] at h
    refine ⟨h, ?_⟩
    rw [← h]
    exact h2

theorem ntsd_cons_iff {k : String} {v : Value} {tl : VDict} :
    normalize_timestamps_dict (.cons k v tl) = .cons k v tl ↔
      (norm_entry k (normalize_timestamps v) = v ∧ normalize_timestamps_dict tl = tl) := by
  simp [normalize_timestamps_dict]

theorem ntsd_dlookup : ∀ (xs : VDict) {k : String} {v : Value},
    normalize_timestamps_dict xs = xs → xs.dlookup k = some v →
    normalize_timestamps v = v ∧ norm_entry k v = v
  | .nil, k, v, _, h => by simp [VDict.dlookup] at h
  | .cons k0 w tl, k, v, hfix, h => by
      rw [ntsd_cons_iff] at hfix
      by_cases h0 : k0 = k
      · subst h0
        simp [VDict.dlookup] at h
        subst h
        exact norm_entry_elim hfix.1
      · simp [VDict.dlookup, h0] at h
        exact ntsd_dlookup tl hfix.2 h

theorem ntsd_dset : ∀ (xs : VDict) {k : String} {v : Value},
    normalize_timestamps_dict xs = xs → normalize_timestamps v = v → norm_entry k v = v →
    normalize_timestamps_dict (xs.dset k v) = xs.dset k v
  | .nil, k, v, _, hv, he => by
      simp [VDict.dset, ntsd_cons_iff, hv, he, normalize_timestamps_dict]
  | .cons k0 w tl, k, v, hfix, hv, he => by
      rw [ntsd_cons_iff] at hfix
      by_cases h0 : k0 = k
      · subst h0
        simp [VDict.dset, ntsd_cons_iff, hv, he, hfix.2]
      · simp [VDict.dset, h0, ntsd_cons_iff, hfix.1, ntsd_dset tl hfix.2 hv he]

theorem ntsd_ddelete : ∀ (xs : VDict) (k : String),
    normalize_timestamps_dict xs = xs →
    normalize_timestamps_dict (xs.ddelete k) = xs.ddelete k
  | .nil, _, _ => rfl
  | .cons k0 w tl, k, hfix => by
      rw [ntsd_cons_iff] at hfix
      by_cases h0 : k0 = k
      · simp [VDict.ddelete, h0, ntsd_ddelete tl k hfix.2]
      · simp [VDict.ddelete, h0, ntsd_cons_iff, hfix.1, ntsd_ddelete tl k hfix.2]

theorem ntsd_dsetdefault (xs : VDict) {k : String} {v : Value}
    (hfix : normalize_timestamps_dict xs = xs)
    (hv : normalize_timestamps v = v) (he : norm_entry k v = v) :
    normalize_timestamps_dict (xs.dsetdefault k v) = xs.dsetdefault k v := by
  unfold VDict.dsetdefault
  split
  · exact hfix
  · exact ntsd_dset xs hfix hv he

theorem nts_vdict_iff {xs : VDict} :
    normalize_timestamps (.vdict xs) = .vdict xs ↔ normalize_timestamps_dict xs = xs := by
  simp [normalize_timestamps]

/- ----------------------------------------------------------------
   Clip repair: stability under timestamp normalization
   ---------------------------------------------------------------- -/

theorem norm_entry_of_dict (k : String) (xs : VDict) : norm_entry k (.vdict xs) = .vdict xs := by
  simp [norm_entry, is_num_or_str]

/-- The `ig_artist` step of `fixSoundInfo` preserves normalization
fixed points. -/
theorem artist_step_nf (s6 : VDict) (h6 : normalize_timestamps_dict s6 = s6) :
    normalize_timestamps_dict
      (match s6.dlookup "ig_artist" with
       | some (.vdict a) =>
           s6.dset "ig_artist" (.vdict ((a.dsetdefault "username" (.vstr "")).dsetdefault "pk" (.vint 0)))
       | some _ => s6.dset "ig_artist" defaultArtist
       | none => s6.dset "ig_artist" defaultArtist) =
      (match s6.dlookup "ig_artist" with
       | some (.vdict a) =>
           s6.dset "ig_artist" (.vdict ((a.dsetdefault "username" (.vstr "")).dsetdefault "pk" (.vint 0)))
       | some _ => s6.dset "ig_artist" defaultArtist
       | none => s6.dset "ig_artist" defaultArtist) := by
  cases hl : s6.dlookup "ig_artist" with
  | none =>
      simp only [hl]
      exact ntsd_dset _ h6 (by decide) (by decide)
  | some w =>
      cases w with
      | vdict a =>
          simp only [hl]
          have ha : normalize_timestamps_dict a = a := by
            have := (ntsd_dlookup _ h6 hl).1
            rwa [nts_vdict_iff] at this
          have ha1 := ntsd_dsetdefault a (k := "username") (v := .vstr "") ha rfl (by decide)
          have ha2 := ntsd_dsetdefault _ (k := "pk") (v := .vint 0) ha1 rfl (by decide)
          exact ntsd_dset _ h6 (by rw [nts_vdict_iff]; exact ha2) (norm_entry_of_dict _ _)
      | vnull => simp only [hl]; exact ntsd_dset _ h6 (by decide) (by decide)
      | vbool b => simp only [hl]; exact ntsd_dset _ h6 (by decide) (by decide)
      | vint n => simp only [hl]; exact ntsd_dset _ h6 (by decide) (by decide)
      | vstr s => simp only [hl]; exact ntsd_dset _ h6 (by decide) (by decide)
      | vlist l => simp only [hl]; exact ntsd_dset _ h6 (by decide) (by decide)

theorem fixSoundInfo_nf (si : VDict) (h : normalize_timestamps_dict si = si) :
    normalize_timestamps_dict (fixSoundInfo si) = fixSoundInfo si := by
  have h1 := ntsd_dsetdefault si (k := "audio_id") (v := .vstr "") h rfl (by decide)
  have h2 := ntsd_dsetdefault _ (k := "original_audio_title") (v := .vstr "") h1 rfl (by decide)
  have h3 := ntsd_dsetdefault _ (k := "progressive_download_url") (v := .vstr "") h2 rfl (by decide)
  have h4 := ntsd_dsetdefault _ (k := "dash_manifest") (v := .vstr "") h3 rfl (by decide)
  have h5 := ntsd_dsetdefault _ (k := "duration_in_ms") (v := .vint 0) h4 rfl (by decide)
  have h6 := ntsd_dsetdefault _ (k := "is_explicit") (v := .vbool false) h5 rfl (by decide)
  exact artist_step_nf _ h6

/-- The `original_sound_info` step of `repairMetadata` preserves
normalization fixed points. -/
theorem osi_step_nf (ms : VDict) (h : normalize_timestamps_dict ms = ms) :
    normalize_timestamps_dict
      (match ms.dlookup "original_sound_info" with
       | none => ms
       | some (.vdict si) => ms.dset "original_sound_info" (.vdict (fixSoundInfo si))
       | some _ => ms.dset "original_sound_info" defaultSoundInfo) =
      (match ms.dlookup "original_sound_info" with
       | none => ms
       | some (.vdict si) => ms.dset "original_sound_info" (.vdict (fixSoundInfo si))
       | some _ => ms.dset "original_sound_info" defaultSoundInfo) := by
  cases hl : ms.dlookup "original_sound_info" with
  | none => simp only [hl]; exact h
  | some w =>
      cases w with
      | vdict si =>
          simp only [hl]
          have hsi : normalize_timestamps_dict si = si := by
            have := (ntsd_dlookup _ h hl).1
            rwa [nts_vdict_iff] at this
          exact ntsd_dset _ h
            (by rw [nts_vdict_iff]; exact fixSoundInfo_nf si hsi) (norm_entry_of_dict _ _)
      | vnull => simp only [hl]; exact ntsd_dset _ h (by decide) (by decide)
      | vbool b => simp only [hl]; exact ntsd_dset _ h (by decide) (by decide)
      | vint n => simp only [hl]; exact ntsd_dset _ h (by decide) (by decide)
      | vstr s => simp only [hl]; exact ntsd_dset _ h (by decide) (by decide)
      | vlist l => simp only [hl]; exact ntsd_dset _ h (by decide) (by decide)

/-- The null-`music_info`/`template_info` cleanup preserves
normalization fixed points. -/
theorem cleanup_nf (m1 : VDict) (h1 : normalize_timestamps_dict m1 = m1) :
    normalize_timestamps_dict
      (if (if m1.dlookup "music_info" = some Value.vnull then m1.ddelete "music_info" else m1).dlookup "template_info" = some Value.vnull
       then (if m1.dlookup "music_info" = some Value.vnull then m1.ddelete "music_info" else m1).ddelete "template_info"
       else (if m1.dlookup "music_info" = some Value.vnull then m1.ddelete "music_info" else m1)) =
      (if (if m1.dlookup "music_info" = some Value.vnull then m1.ddelete "music_info" else m1).dlookup "template_info" = some Value.vnull
       then (if m1.dlookup "music_info" = some Value.vnull then m1.ddelete "music_info" else m1).ddelete "template_info"
       else (if m1.dlookup "music_info" = some Value.vnull then m1.ddelete "music_info" else m1)) := by
  split <;> split <;>
    first
      | exact ntsd_ddelete _ _ (ntsd_ddelete _ _ h1)
      | exact ntsd_ddelete _ _ h1
      | exact h1

theorem repairMetadata_nf (ms : VDict) (h : normalize_timestamps_dict ms = ms) :
    normalize_timestamps_dict (repairMetadata ms) = repairMetadata ms := by
  exact cleanup_nf _ (osi_step_nf ms h)

theorem repairAtTarget_nf (t : Value) (h : normalize_timestamps t = t) :
    normalize_timestamps (repairAtTarget t) = repairAtTarget t := by
  cases t with
  | vdict zs =>
      unfold repairAtTarget
      cases hl : zs.dlookup "clips_metadata" with
      | none => simp only [hl]; exact h
      | some w =>
          cases w with
          | vdict ms =>
              simp only [hl]
              have hzs : normalize_timestamps_dict zs = zs := nts_vdict_iff.mp h
              have hms : normalize_timestamps_dict ms = ms := by
                have := (ntsd_dlookup _ hzs hl).1
                rwa [nts_vdict_iff] at this
              rw [nts_vdict_iff]
              exact ntsd_dset _ hzs
                (by rw [nts_vdict_iff]; exact repairMetadata_nf ms hms) (norm_entry_of_dict _ _)
          | vnull => simp only [hl]; exact h
          | vbool b => simp only [hl]; exact h
          | vint n => simp only [hl]; exact h
          | vstr s => simp only [hl]; exact h
          | vlist l => simp only [hl]; exact h
  | vnull => exact h
  | vbool b => exact h
  | vint n => exact h
  | vstr s => exact h
  | vlist l => exact h

theorem repairClipValue_nf (c : Value) (h : normalize_timestamps c = c) :
    normalize_timestamps (repairClipValue c) = repairClipValue c := by
  cases c with
  | vdict ys =>
      unfold repairClipValue
      cases hl : ys.dlookup "clip" with
      | none => simp only [hl]; exact repairAtTarget_nf _ h
      | some inner =>
          simp only [hl]
          have hys : normalize_timestamps_dict ys = ys := nts_vdict_iff.mp h
          have hinner := ntsd_dlookup _ hys hl
          have hrt := repairAtTarget_nf inner hinner.1
          rw [nts_vdict_iff]
          refine ntsd_dset _ hys hrt ?_
          have hts : contains_timestamp "clip" = false := by decide
          simp [norm_entry, hts]
  | vnull => exact repairAtTarget_nf _ h
  | vbool b => exact repairAtTarget_nf _ h
  | vint n => exact repairAtTarget_nf _ h
  | vstr s => exact repairAtTarget_nf _ h
  | vlist l => exact repairAtTarget_nf _ h

theorem repairClips_nf (v : Value) (h : normalize_timestamps v = v) :
    normalize_timestamps (repairClips v) = repairClips v := by
  cases v with
  | vdict xs =>
      unfold repairClips
      cases hl : xs.dlookup "clip" with
      | none => simp only [hl]; exact h
      | some c =>
          simp only [hl]
          have hxs : normalize_timestamps_dict xs = xs := nts_vdict_iff.mp h
          have hc := ntsd_dlookup _ hxs hl
          have hcv := repairClipValue_nf c hc.1
          rw [nts_vdict_iff]
          refine ntsd_dset _ hxs hcv ?_
          have hts : contains_timestamp "clip" = false := by decide
          simp [norm_entry, hts]
  | vnull => exact h
  | vbool b => exact h
  | vint n => exact h
  | vstr s => exact h
  | vlist l => exact h

/- ----------------------------------------------------------------
   Clip repair: idempotence
   ---------------------------------------------------------------- -/

theorem artist_step_keys (s6 : VDict) :
    (∀ k : String, (s6.dlookup k).isSome = true →
      (((match s6.dlookup "ig_artist" with
         | some (.vdict a) =>
             s6.dset "ig_artist" (.vdict ((a.dsetdefault "username" (.vstr "")).dsetdefault "pk" (.vint 0)))
         | some _ => s6.dset "ig_artist" defaultArtist
         | none => s6.dset "ig_artist" defaultArtist) : VDict).dlookup k).isSome = true) ∧
    ∃ a : VDict,
      ((match s6.dlookup "ig_artist" with
        | some (.vdict a) =>
            s6.dset "ig_artist" (.vdict ((a.dsetdefault "username" (.vstr "")).dsetdefault "pk" (.vint 0)))
        | some _ => s6.dset "ig_artist" defaultArtist
        | none => s6.dset "ig_artist" defaultArtist) : VDict).dlookup "ig_artist" = some (.vdict a) ∧
      (a.dlookup "username").isSome = true ∧ (a.dlookup "pk").isSome = true := by
  cases hl : s6.dlookup "ig_artist" with
  | none =>
      simp only [hl]
      refine ⟨fun k h => VDict.isSome_dlookup_dset _ _ _ h, ?_⟩
      exact ⟨_, by rw [VDict.dlookup_dset_self]; rfl, by decide, by decide⟩
  | some w =>
      cases w with
      | vdict a =>
          simp only [hl]
          refine ⟨fun k h => VDict.isSome_dlookup_dset _ _ _ h, ?_⟩
          refine ⟨(a.dsetdefault "username" (.vstr "")).dsetdefault "pk" (.vint 0),
            VDict.dlookup_dset_self _ _ _, ?_, ?_⟩
          · apply VDict.isSome_dlookup_dsetdefault
            rw [VDict.dlookup_dsetdefault_self]
            rfl
          · rw [VDict.dlookup_dsetdefault_self]
            rfl
      | vnull =>
          simp only [hl]
          exact ⟨fun k h => VDict.isSome_dlookup_dset _ _ _ h,
            _, by rw [VDict.dlookup_dset_self]; rfl, by decide, by decide⟩
      | vbool b =>
          simp only [hl]
          exact ⟨fun k h => VDict.isSome_dlookup_dset _ _ _ h,
            _, by rw [VDict.dlookup_dset_self]; rfl, by decide, by decide⟩
      | vint n =>
          simp only [hl]
          exact ⟨fun k h => VDict.isSome_dlookup_dset _ _ _ h,
            _, by rw [VDict.dlookup_dset_self]; rfl, by decide, by decide⟩
      | vstr s =>
          simp only [hl]
          exact ⟨fun k h => VDict.isSome_dlookup_dset _ _ _ h,
            _, by rw [VDict.dlookup_dset_self]; rfl, by decide, by decide⟩
      | vlist l =>
          simp only [hl]
          exact ⟨fun k h => VDict.isSome_dlookup_dset _ _ _ h,
            _, by rw [VDict.dlookup_dset_self]; rfl, by decide, by decide⟩

/-- After `fixSoundInfo`, every required field is present, original
bindings survive (in key), and the artist record is a dict holding
`username` and `pk`. -/
theorem fixSoundInfo_keys (si : VDict) :
    ((fixSoundInfo si).dlookup "audio_id").isSome = true ∧
    ((fixSoundInfo si).dlookup "original_audio_title").isSome = true ∧
    ((fixSoundInfo si).dlookup "progressive_download_url").isSome = true ∧
    ((fixSoundInfo si).dlookup "dash_manifest").isSome = true ∧
    ((fixSoundInfo si).dlookup "duration_in_ms").isSome = true ∧
    ((fixSoundInfo si).dlookup "is_explicit").isSome = true ∧
    ∃ a : VDict, (fixSoundInfo si).dlookup "ig_artist" = some (.vdict a) ∧
      (a.dlookup "username").isSome = true ∧ (a.dlookup "pk").isSome = true := by
  have HA := artist_step_keys
    ((((((si.dsetdefault "audio_id" (Value.vstr "")).dsetdefault
        "original_audio_title" (Value.vstr "")).dsetdefault
        "progressive_download_url" (Value.vstr "")).dsetdefault
        "dash_manifest" (Value.vstr "")).dsetdefault
        "duration_in_ms" (Value.vint 0)).dsetdefault
        "is_explicit" (Value.vbool false))
  refine ⟨?_, ?_, ?_, ?_, ?_, ?_, HA.2⟩
  · apply HA.1
    apply VDict.isSome_dlookup_dsetdefault
    apply VDict.isSome_dlookup_dsetdefault
    apply VDict.isSome_dlookup_dsetdefault
    apply VDict.isSome_dlookup_dsetdefault
    apply VDict.isSome_dlookup_dsetdefault
    rw [VDict.dlookup_dsetdefault_self]
    rfl
  · apply HA.1
    apply VDict.isSome_dlookup_dsetdefault
    apply VDict.isSome_dlookup_dsetdefault
    apply VDict.isSome_dlookup_dsetdefault
    apply VDict.isSome_dlookup_dsetdefault
    rw [VDict.dlookup_dsetdefault_self]
    rfl
  · apply HA.1
    apply VDict.isSome_dlookup_dsetdefault
    apply VDict.isSome_dlookup_dsetdefault
    apply VDict.isSome_dlookup_dsetdefault
    rw [VDict.dlookup_dsetdefault_self]
    rfl
  · apply HA.1
    apply VDict.isSome_dlookup_dsetdefault
    apply VDict.isSome_dlookup_dsetdefault
    rw [VDict.dlookup_dsetdefault_self]
    rfl
  · apply HA.1
    apply VDict.isSome_dlookup_dsetdefault
    rw [VDict.dlookup_dsetdefault_self]
    rfl
  · apply HA.1
    rw [VDict.dlookup_dsetdefault_self]
    rfl

theorem fixSoundInfo_idem (si : VDict) : fixSoundInfo (fixSoundInfo si) = fixSoundInfo si := by
  obtain ⟨k1, k2, k3, k4, k5, k6, a, hart, hau, hap⟩ := fixSoundInfo_keys si
  set y := fixSoundInfo si with hy
  simp only [fixSoundInfo]
  rw [VDict.dsetdefault_of_mem _ _ k1, VDict.dsetdefault_of_mem _ _ k2,
    VDict.dsetdefault_of_mem _ _ k3, VDict.dsetdefault_of_mem _ _ k4,
    VDict.dsetdefault_of_mem _ _ k5, VDict.dsetdefault_of_mem _ _ k6, hart]
  show y.dset "ig_artist"
      (Value.vdict ((a.dsetdefault "username" (Value.vstr "")).dsetdefault "pk" (Value.vint 0))) = y
  rw [VDict.dsetdefault_of_mem _ _ hau, VDict.dsetdefault_of_mem _ _ hap]
  exact VDict.dset_eq_self_of_dlookup _ hart

/-- `repairMetadata` unfolded to its zeta-reduced form. -/
theorem repairMetadata_eq (ms : VDict) :
    repairMetadata ms =
      (if (if (match ms.dlookup "original_sound_info" with
               | none => ms
               | some (.vdict si) => ms.dset "original_sound_info" (.vdict (fixSoundInfo si))
               | some _ => ms.dset "original_sound_info" defaultSoundInfo).dlookup "music_info" = some Value.vnull
           then (match ms.dlookup "original_sound_info" with
                 | none => ms
                 | some (.vdict si) => ms.dset "original_sound_info" (.vdict (fixSoundInfo si))
                 | some _ => ms.dset "original_sound_info" defaultSoundInfo).ddelete "music_info"
           else (match ms.dlookup "original_sound_info" with
                 | none => ms
                 | some (.vdict si) => ms.dset "original_sound_info" (.vdict (fixSoundInfo si))
                 | some _ => ms.dset "original_sound_info" defaultSoundInfo)).dlookup "template_info" = some Value.vnull
       then (if (match ms.dlookup "original_sound_info" with
                 | none => ms
                 | some (.vdict si) => ms.dset "original_sound_info" (.vdict (fixSoundInfo si))
                 | some _ => ms.dset "original_sound_info" defaultSoundInfo).dlookup "music_info" = some Value.vnull
             then (match ms.dlookup "original_sound_info" with
                   | none => ms
                   | some (.vdict si) => ms.dset "original_sound_info" (.vdict (fixSoundInfo si))
                   | some _ => ms.dset "original_sound_info" defaultSoundInfo).ddelete "music_info"
             else (match ms.dlookup "original_sound_info" with
                   | none => ms
                   | some (.vdict si) => ms.dset "original_sound_info" (.vdict (fixSoundInfo si))
                   | some _ => ms.dset "original_sound_info" defaultSoundInfo)).ddelete "template_info"
       else (if (match ms.dlookup "original_sound_info" with
                 | none => ms
                 | some (.vdict si) => ms.dset "original_sound_info" (.vdict (fixSoundInfo si))
                 | some _ => ms.dset "original_sound_info" defaultSoundInfo).dlookup "music_info" = some Value.vnull
             then (match ms.dlookup "original_sound_info" with
                   | none => ms
                   | some (.vdict si) => ms.dset "original_sound_info" (.vdict (fixSoundInfo si))
                   | some _ => ms.dset "original_sound_info" defaultSoundInfo).ddelete "music_info"
             else (match ms.dlookup "original_sound_info" with
                   | none => ms
                   | some (.vdict si) => ms.dset "original_sound_info" (.vdict (fixSoundInfo si))
                   | some _ => ms.dset "original_sound_info" defaultSoundInfo))) := rfl

/-- The cleanup of null `music_info`/`template_info` leaves every
other key's binding unchanged. -/
theorem cleanup_dlookup_other (m1 : VDict) {k : String}
    (h1 : k ≠ "music_info") (h2 : k ≠ "template_info") :
    (if (if m1.dlookup "music_info" = some Value.vnull then m1.ddelete "music_info" else m1).dlookup "template_info" = some Value.vnull
     then (if m1.dlookup "music_info" = some Value.vnull then m1.ddelete "music_info" else m1).ddelete "template_info"
     else (if m1.dlookup "music_info" = some Value.vnull then m1.ddelete "music_info" else m1)).dlookup k =
      m1.dlookup k := by
  split <;> split <;>
    simp [VDict.dlookup_ddelete_ne _ h2, VDict.dlookup_ddelete_ne _ h1]

/-- The binding of `original_sound_info` after `repairMetadata`. -/
theorem repairMetadata_dlookup_osi (ms : VDict) :
    (repairMetadata ms).dlookup "original_sound_info" =
      (match ms.dlookup "original_sound_info" with
       | none => none
       | some (.vdict si) => some (.vdict (fixSoundInfo si))
       | some _ => some defaultSoundInfo) := by
  rw [repairMetadata_eq, cleanup_dlookup_other _ (by decide) (by decide)]
  cases hl : ms.dlookup "original_sound_info" with
  | none => exact hl
  | some w => cases w <;> simp [VDict.dlookup_dset_self]

theorem repairMetadata_music (ms : VDict) :
    (repairMetadata ms).dlookup "music_info" ≠ some Value.vnull := by
  rw [repairMetadata_eq]
  split
  · split
    · rw [VDict.dlookup_ddelete_ne _ (show ("music_info" : String) ≠ "template_info" from by decide),
        VDict.dlookup_ddelete_self]
      simp
    · rw [VDict.dlookup_ddelete_self]
      simp
  · split
    · rw [VDict.dlookup_ddelete_ne _ (show ("music_info" : String) ≠ "template_info" from by decide)]
      assumption
    · assumption

theorem repairMetadata_template (ms : VDict) :
    (repairMetadata ms).dlookup "template_info" ≠ some Value.vnull := by
  rw [repairMetadata_eq]
  split
  · split
    · rw [VDict.dlookup_ddelete_self]
      simp
    · assumption
  · split
    · rw [VDict.dlookup_ddelete_self]
      simp
    · assumption

/-- The synthesized default sound info is itself a fixed point of the
`original_sound_info` repair step. -/
theorem osi_default_step (R : VDict)
    (hlook : R.dlookup "original_sound_info" = some defaultSoundInfo) :
    (match (some defaultSoundInfo : Option Value) with
     | none => R
     | some (.vdict si) => R.dset "original_sound_info" (.vdict (fixSoundInfo si))
     | some _ => R.dset "original_sound_info" defaultSoundInfo) = R := by
  show R.dset "original_sound_info"
      (.vdict (fixSoundInfo (.cons "audio_id" (.vstr "")
        (.cons "original_audio_title" (.vstr "")
          (.cons "progressive_download_url" (.vstr "")
            (.cons "dash_manifest" (.vstr "")
              (.cons "ig_artist" (.vdict (.cons "username" (.vstr "") (.cons "pk" (.vint 0) .nil)))
                (.cons "duration_in_ms" (.vint 0)
                  (.cons "is_explicit" (.vbool false) .nil))))))))) = R
  rw [show fixSoundInfo (.cons "audio_id" (.vstr "")
        (.cons "original_audio_title" (.vstr "")
          (.cons "progressive_download_url" (.vstr "")
            (.cons "dash_manifest" (.vstr "")
              (.cons "ig_artist" (.vdict (.cons "username" (.vstr "") (.cons "pk" (.vint 0) .nil)))
                (.cons "duration_in_ms" (.vint 0)
                  (.cons "is_explicit" (.vbool false) .nil))))))) =
      (.cons "audio_id" (.vstr "")
        (.cons "original_audio_title" (.vstr "")
          (.cons "progressive_download_url" (.vstr "")
            (.cons "dash_manifest" (.vstr "")
              (.cons "ig_artist" (.vdict (.cons "username" (.vstr "") (.cons "pk" (.vint 0) .nil)))
                (.cons "duration_in_ms" (.vint 0)
                  (.cons "is_explicit" (.vbool false) .nil))))))) from by decide]
  exact VDict.dset_eq_self_of_dlookup _ hlook

theorem repairMetadata_idem (ms : VDict) :
    repairMetadata (repairMetadata ms) = repairMetadata ms := by
  have hosi := repairMetadata_dlookup_osi ms
  have hmusic := repairMetadata_music ms
  have htemp := repairMetadata_template ms
  set R := repairMetadata ms with hR
  have hstep : (match R.dlookup "original_sound_info" with
       | none => R
       | some (.vdict si) => R.dset "original_sound_info" (.vdict (fixSoundInfo si))
       | some _ => R.dset "original_sound_info" defaultSoundInfo) = R := by
    rw [hosi]
    cases hl : ms.dlookup "original_sound_info" with
    | none => rfl
    | some w =>
        cases w with
        | vdict si =>
            show R.dset "original_sound_info" (.vdict (fixSoundInfo (fixSoundInfo si))) = R
            rw [fixSoundInfo_idem]
            apply VDict.dset_eq_self_of_dlookup
            rw [hosi, hl]
        | vnull => exact osi_default_step R (by rw [hosi, hl])
        | vbool b => exact osi_default_step R (by rw [hosi, hl])
        | vint n => exact osi_default_step R (by rw [hosi, hl])
        | vstr s => exact osi_default_step R (by rw [hosi, hl])
        | vlist l => exact osi_default_step R (by rw [hosi, hl])
  rw [repairMetadata_eq R, hstep, if_neg hmusic, if_neg htemp]

theorem repairAtTarget_dict_some (zs : VDict) {ms : VDict}
    (hl : zs.dlookup "clips_metadata" = some (.vdict ms)) :
    repairAtTarget (.vdict zs) = .vdict (zs.dset "clips_metadata" (.vdict (repairMetadata ms))) := by
  unfold repairAtTarget
  simp [hl]

theorem repairAtTarget_idem (t : Value) : repairAtTarget (repairAtTarget t) = repairAtTarget t := by
  cases t with
  | vdict zs =>
      cases hl : zs.dlookup "clips_metadata" with
      | some w =>
          cases w with
          | vdict ms =>
              rw [repairAtTarget_dict_some zs hl]
              rw [repairAtTarget_dict_some _ (VDict.dlookup_dset_self zs _ _)]
              rw [repairMetadata_idem, VDict.dset_dset_self]
          | vnull =>
              have e1 : repairAtTarget (.vdict zs) = .vdict zs := by
                unfold repairAtTarget
                simp [hl]
              rw [e1, e1]
          | vbool b =>
              have e1 : repairAtTarget (.vdict zs) = .vdict zs := by
                unfold repairAtTarget
                simp [hl]
              rw [e1, e1]
          | vint n =>
              have e1 : repairAtTarget (.vdict zs) = .vdict zs := by
                unfold repairAtTarget
                simp [hl]
              rw [e1, e1]
          | vstr s =>
              have e1 : repairAtTarget (.vdict zs) = .vdict zs := by
                unfold repairAtTarget
                simp [hl]
              rw [e1, e1]
          | vlist l =>
              have e1 : repairAtTarget (.vdict zs) = .vdict zs := by
                unfold repairAtTarget
                simp [hl]
              rw [e1, e1]
      | none =>
          have e1 : repairAtTarget (.vdict zs) = .vdict zs := by
            unfold repairAtTarget
            simp [hl]
          rw [e1, e1]
  | vnull => rfl
  | vbool b => rfl
  | vint n => rfl
  | vstr s => rfl
  | vlist l => rfl

theorem repairClipValue_dict_some (ys : VDict) {inner : Value}
    (hl : ys.dlookup "clip" = some inner) :
    repairClipValue (.vdict ys) = .vdict (ys.dset "clip" (repairAtTarget inner)) := by
  unfold repairClipValue
  simp [hl]

theorem repairClipValue_dict_none (ys : VDict) (hl : ys.dlookup "clip" = none) :
    repairClipValue (.vdict ys) = repairAtTarget (.vdict ys) := by
  unfold repairClipValue
  simp [hl]

theorem repairClipValue_idem (c : Value) :
    repairClipValue (repairClipValue c) = repairClipValue c := by
  cases c with
  | vdict ys =>
      cases hl : ys.dlookup "clip" with
      | some inner =>
          rw [repairClipValue_dict_some ys hl]
          rw [repairClipValue_dict_some _ (VDict.dlookup_dset_self ys _ _)]
          rw [repairAtTarget_idem, VDict.dset_dset_self]
      | none =>
          rw [repairClipValue_dict_none ys hl]
          cases hm : ys.dlookup "clips_metadata" with
          | some w =>
              cases w with
              | vdict ms =>
                  rw [repairAtTarget_dict_some ys hm]
                  have hl2 : (ys.dset "clips_metadata" (.vdict (repairMetadata ms))).dlookup "clip" = none := by
                    rw [VDict.dlookup_dset_ne _ _ (show ("clip" : String) ≠ "clips_metadata" from by decide)]
                    exact hl
                  rw [repairClipValue_dict_none _ hl2]
                  rw [← repairAtTarget_dict_some ys hm, repairAtTarget_idem]
              | vnull =>
                  have e1 : repairAtTarget (.vdict ys) = .vdict ys := by
                    unfold repairAtTarget
                    simp [hm]
                  rw [e1, repairClipValue_dict_none ys hl, e1]
              | vbool b =>
                  have e1 : repairAtTarget (.vdict ys) = .vdict ys := by
                    unfold repairAtTarget
                    simp [hm]
                  rw [e1, repairClipValue_dict_none ys hl, e1]
              | vint n =>
                  have e1 : repairAtTarget (.vdict ys) = .vdict ys := by
                    unfold repairAtTarget
                    simp [hm]
                  rw [e1, repairClipValue_dict_none ys hl, e1]
              | vstr s =>
                  have e1 : repairAtTarget (.vdict ys) = .vdict ys := by
                    unfold repairAtTarget
                    simp [hm]
                  rw [e1, repairClipValue_dict_none ys hl, e1]
              | vlist l =>
                  have e1 : repairAtTarget (.vdict ys) = .vdict ys := by
                    unfold repairAtTarget
                    simp [hm]
                  rw [e1, repairClipValue_dict_none ys hl, e1]
          | none =>
              have e1 : repairAtTarget (.vdict ys) = .vdict ys := by
                unfold repairAtTarget
                simp [hm]
              rw [e1, repairClipValue_dict_none ys hl, e1]
  | vnull => rfl
  | vbool b => rfl
  | vint n => rfl
  | vstr s => rfl
  | vlist l => rfl

theorem repairClips_dict_some (xs : VDict) {c : Value} (hl : xs.dlookup "clip" = some c) :
    repairClips (.vdict xs) = .vdict (xs.dset "clip" (repairClipValue c)) := by
  unfold repairClips
  simp [hl]

theorem repairClips_dict_none (xs : VDict) (hl : xs.dlookup "clip" = none) :
    repairClips (.vdict xs) = .vdict xs := by
  unfold repairClips
  simp [hl]

theorem repairClips_idem (v : Value) : repairClips (repairClips v) = repairClips v := by
  cases v with
  | vdict xs =>
      cases hl : xs.dlookup "clip" with
      | some c =>
          rw [repairClips_dict_some xs hl]
          rw [repairClips_dict_some _ (VDict.dlookup_dset_self xs _ _)]
          rw [repairClipValue_idem, VDict.dset_dset_self]
      | none =>
          rw [repairClips_dict_none xs hl, repairClips_dict_none xs hl]
  | vnull => rfl
  | vbool b => rfl
  | vint n => rfl
  | vstr s => rfl
  | vlist l => rfl

/-- `repairClips` maps dicts to dicts. -/
theorem repairClips_dict (xs : VDict) : ∃ ws : VDict, repairClips (.vdict xs) = .vdict ws := by
  cases hl : xs.dlookup "clip" with
  | some c => exact ⟨_, repairClips_dict_some xs hl⟩
  | none => exact ⟨xs, repairClips_dict_none xs hl⟩

/-- C1.  The sanitizer is idempotent: whenever `_clean_media_item`
returns a cleaned item, cleaning that output again returns it
unchanged, i.e. `sanitize(sanitize(x)) = sanitize(x)` for every raw
item `x`. -/
theorem C1_sanitizer_idempotent (x y : Value) (h : clean_media_item x = some y) :
    clean_media_item y = some y := by
  cases x with
  | vdict xs =>
      simp only [clean_media_item] at h
      have hy : y = repairClips (normalize_timestamps (.vdict xs)) := (Option.some.inj h).symm
      subst hy
      obtain ⟨ws, hws⟩ : ∃ ws : VDict,
          repairClips (normalize_timestamps (.vdict xs)) = .vdict ws := by
        exact repairClips_dict (normalize_timestamps_dict xs)
      rw [hws]
      simp only [clean_media_item]
      have h1 : normalize_timestamps (.vdict ws) = .vdict ws := by
        rw [← hws]
        exact repairClips_nf _ (nts_idem _)
      rw [h1, ← hws, repairClips_idem, hws]
  | vnull =>
      simp only [clean_media_item] at h
      rw [← Option.some.inj h]
      rfl
  | vbool b =>
      simp only [clean_media_item] at h
      rw [← Option.some.inj h]
      rfl
  | vint n =>
      simp only [clean_media_item] at h
      rw [← Option.some.inj h]
      rfl
  | vstr s =>
      simp only [clean_media_item] at h
      rw [← Option.some.inj h]
      rfl
  | vlist l =>
      simp only [clean_media_item] at h
      rw [← Option.some.inj h]
      rfl

/-- Witness for C1 at a concrete clip item with a millisecond
timestamp and a null `original_sound_info`. -/
theorem C1_sanitizer_idempotent_witness :
    clean_media_item
      (.vdict (.cons "timestamp" (.vint 1700000000)
        (.cons "clip" (.vdict (.cons "clips_metadata"
          (.vdict (.cons "original_sound_info" defaultSoundInfo .nil)) .nil)) .nil))) =
    some (.vdict (.cons "timestamp" (.vint 1700000000)
        (.cons "clip" (.vdict (.cons "clips_metadata"
          (.vdict (.cons "original_sound_info" defaultSoundInfo .nil)) .nil)) .nil))) :=
  C1_sanitizer_idempotent
    (.vdict (.cons "timestamp" (.vint 1700000000000)
      (.cons "clip" (.vdict (.cons "clips_metadata"
        (.vdict (.cons "original_sound_info" Value.vnull .nil)) .nil)) .nil)))
    (.vdict (.cons "timestamp" (.vint 1700000000)
      (.cons "clip" (.vdict (.cons "clips_metadata"
        (.vdict (.cons "original_sound_info" defaultSoundInfo .nil)) .nil)) .nil)))
    (by decide)

/- ----------------------------------------------------------------
   C2 and C3: the timestamp normalization algorithm
   ---------------------------------------------------------------- -/

/-- On a millisecond epoch `s * 1000` with in-range seconds part the
float division is exact, so the code agrees with the spec's
exact-division algorithm. -/
theorem normalize_int_ms (s : Nat) (hs : (s : Int) ≤ limit_seconds) :
    normalize_int ((s : Int) * 1000) = spec_normalize_timestamp ((s : Int) * 1000) := by
  by_cases h0 : (s : Int) * 1000 ≤ limit_seconds
  · rw [normalize_int_of_le h0]
    simp [spec_normalize_timestamp, not_lt.mpr h0, not_lt.mpr hs]
  · push_neg at h0
    have hL : limit_seconds = 253402300799 := rfl
    have hpos : 0 < s := by omega
    have hlt : s < 2 ^ 53 := by
      have h53 : (2 : Nat) ^ 53 = 9007199254740992 := by norm_num
      omega
    have hdiv := int_div1000_exact hpos hlt
    have hspec : (s : Int) * 1000 / 1000 = (s : Int) := Int.mul_ediv_cancel _ (by norm_num)
    simp [normalize_int, normalize_loop, spec_normalize_timestamp, not_le.mpr h0, h0, hdiv,
      hs, not_lt.mpr hs, hspec]

/-- On a microsecond epoch `s * 10^6` with in-range seconds part both
float divisions are exact, so the code agrees with the spec's
exact-division algorithm. -/
theorem normalize_int_us (s : Nat) (hs : (s : Int) ≤ limit_seconds) :
    normalize_int ((s : Int) * 1000000) = spec_normalize_timestamp ((s : Int) * 1000000) := by
  by_cases h0 : (s : Int) * 1000000 ≤ limit_seconds
  · rw [normalize_int_of_le h0]
    simp [spec_normalize_timestamp, not_lt.mpr h0, not_lt.mpr hs]
  · push_neg at h0
    have hL : limit_seconds = 253402300799 := rfl
    have hpos : 0 < s := by omega
    have h53 : (2 : Nat) ^ 53 = 9007199254740992 := by norm_num
    have hlt : s < 2 ^ 53 := by omega
    have hlt3 : s * 1000 < 2 ^ 53 := by omega
    have hpos3 : 0 < s * 1000 := by omega
    have hc : (s : Int) * 1000000 = ((s * 1000 : Nat) : Int) * 1000 := by push_cast; ring
    have hdiv1 : int_div1000 ((s : Int) * 1000000) = some ((s * 1000 : Nat) : Int) := by
      rw [hc]; exact int_div1000_exact hpos3 hlt3
    have hc2 : ((s * 1000 : Nat) : Int) = (s : Int) * 1000 := by push_cast; ring
    have hspec1 : (s : Int) * 1000000 / 1000 = (s : Int) * 1000 := by
      rw [hc, hc2, Int.mul_ediv_cancel _ (by norm_num)]
    have hspec2 : (s : Int) * 1000 / 1000 = (s : Int) := Int.mul_ediv_cancel _ (by norm_num)
    rw [hc2] at hdiv1
    by_cases h1 : (s : Int) * 1000 ≤ limit_seconds
    · simp [normalize_int, normalize_loop, spec_normalize_timestamp, not_le.mpr h0, h0, hdiv1,
        hc2, h1, not_lt.mpr h1, hspec1, hs, not_lt.mpr hs]
    · push_neg at h1
      have hdiv2 := int_div1000_exact hpos hlt
      simp [normalize_int, normalize_loop, spec_normalize_timestamp, not_le.mpr h0, h0, hdiv1,
        hc2, not_le.mpr h1, h1, hdiv2, hspec1, hspec2, hs, not_lt.mpr hs]

/-- C2 (counterexample).  On input `9999999999999999` the sanitizer
does not return the year-9999 maximum `253402300799`: two divisions
by 1000 already bring the value into range. -/
theorem C2_clamp_counterexample :
    ¬ normalize_timestamp_value (.vint 9999999999999999) = .vint 253402300799 := by
  decide

/-- C2 (amended).  For the timestamp input `9999999999999999` the
normalization returns `9999999999` (the value after two divisions by
1000) without raising; the clamp to `253402300799` is reached only by
values that still exceed it after both divisions, e.g.
`253402300800 * 10^6`. -/
theorem C2_clamp_amended :
    normalize_timestamp_value (.vint 9999999999999999) = .vint 9999999999 ∧
    normalize_timestamp_value (.vint (253402300800 * 1000000)) = .vint 253402300799 := by
  constructor
  · decide
  · decide

/-- C3 (counterexample).  The spec's algorithm divides exactly, but
the code divides through a binary float: on `19999999999999999` (an
odd microsecond epoch) the first `int(n / 1000)` rounds up to
`20000000000000`, so the code returns `20000000000` where the spec's
exact divisions give `19999999999`. -/
theorem C3_timestamp_counterexample :
    normalize_timestamp_value (.vint 19999999999999999) = .vint 20000000000 ∧
    spec_normalize_timestamp 19999999999999999 = 19999999999 ∧
    ¬ normalize_timestamp_value (.vint 19999999999999999) =
        .vint (spec_normalize_timestamp 19999999999999999) := by
  refine ⟨by decide, by decide, by decide⟩

/-- C3 (amended).  Timestamp normalization divides by 1000 at most
twice, each time only while the value exceeds the maximum epoch
seconds, then clamps — but each division is Python's float true
division `int(n / 1000)` rather than the spec's exact division.  Both
agree on every millisecond epoch `s * 1000` and microsecond epoch
`s * 10^6` whose seconds part `s` is in range (the float divisions
are then exact); a dict binding whose key contains "timestamp"
receives exactly this treatment; in particular
`1700000000000 ↦ 1700000000` and `1700000000000000 ↦ 1700000000`. -/
theorem C3_timestamp_algorithm_amended :
    (∀ s : Nat, (s : Int) ≤ limit_seconds →
      normalize_timestamp_value (.vint ((s : Int) * 1000)) =
        .vint (spec_normalize_timestamp ((s : Int) * 1000))) ∧
    (∀ s : Nat, (s : Int) ≤ limit_seconds →
      normalize_timestamp_value (.vint ((s : Int) * 1000000)) =
        .vint (spec_normalize_timestamp ((s : Int) * 1000000))) ∧
    (∀ (k : String) (n : Int), contains_timestamp k = true →
      normalize_timestamps_dict (.cons k (.vint n) .nil) =
        .cons k (.vint (normalize_int n)) .nil) ∧
    normalize_timestamps (.vdict (.cons "timestamp" (.vint 1700000000000) .nil)) =
      .vdict (.cons "timestamp" (.vint 1700000000) .nil) ∧
    normalize_timestamps (.vdict (.cons "timestamp" (.vint 1700000000000000) .nil)) =
      .vdict (.cons "timestamp" (.vint 1700000000) .nil) := by
  refine ⟨?_, ?_, ?_, by decide, by decide⟩
  · intro s hs
    simp [normalize_timestamp_value, normalize_int_ms s hs]
  · intro s hs
    simp [normalize_timestamp_value, normalize_int_us s hs]
  · intro k n hk
    simp [normalize_timestamps_dict, normalize_timestamps, norm_entry, is_num_or_str, hk,
      normalize_timestamp_value]

/-- Witness for the amended C3 at concrete inputs: the millisecond
and microsecond epochs of second 1700000000, and a dict binding under
the key "timestamp_us". -/
theorem C3_timestamp_algorithm_amended_witness :
    (((1700000000 : Nat) : Int) ≤ limit_seconds ∧
      normalize_timestamp_value (.vint (((1700000000 : Nat) : Int) * 1000)) =
        .vint (spec_normalize_timestamp (((1700000000 : Nat) : Int) * 1000))) ∧
    (((1700000000 : Nat) : Int) ≤ limit_seconds ∧
      normalize_timestamp_value (.vint (((1700000000 : Nat) : Int) * 1000000)) =
        .vint (spec_normalize_timestamp (((1700000000 : Nat) : Int) * 1000000))) ∧
    (contains_timestamp "timestamp_us" = true ∧
      normalize_timestamps_dict (.cons "timestamp_us" (.vint 1700000000000) .nil) =
        .cons "timestamp_us" (.vint (normalize_int 1700000000000)) .nil) :=
  ⟨⟨by decide, C3_timestamp_algorithm_amended.1 1700000000 (by decide)⟩,
   ⟨by decide, C3_timestamp_algorithm_amended.2.1 1700000000 (by decide)⟩,
   ⟨by decide, C3_timestamp_algorithm_amended.2.2.1 "timestamp_us" 1700000000000 (by decide)⟩⟩

/- ----------------------------------------------------------------
   C4: clip repair
   ---------------------------------------------------------------- -/

theorem dlookup_dsetdefault_of_some (d : VDict) {k : String} {v : Value} (k0 : String) (v0 : Value)
    (h : d.dlookup k = some v) : (d.dsetdefault k0 v0).dlookup k = some v := by
  by_cases hk : k = k0
  · subst hk
    rw [VDict.dlookup_dsetdefault_self, h]
    rfl
  · rw [VDict.dlookup_dsetdefault_ne _ _ hk]
    exact h

/-- The `ig_artist` step leaves every other binding unchanged. -/
theorem artist_step_dlookup_ne (s6 : VDict) {k : String} (hk : k ≠ "ig_artist") :
    ((match s6.dlookup "ig_artist" with
      | some (.vdict a) =>
          s6.dset "ig_artist" (.vdict ((a.dsetdefault "username" (.vstr "")).dsetdefault "pk" (.vint 0)))
      | some _ => s6.dset "ig_artist" defaultArtist
      | none => s6.dset "ig_artist" defaultArtist) : VDict).dlookup k = s6.dlookup k := by
  cases hl : s6.dlookup "ig_artist" with
  | none => simp only [hl]; exact VDict.dlookup_dset_ne _ _ hk
  | some w => cases w <;> simp only [hl] <;> exact VDict.dlookup_dset_ne _ _ hk

/-- C4 (counterexample).  For a clip item whose `clips_metadata` has no
`original_sound_info` key at all, the sanitizer returns the item
unchanged: no default sound-info object is synthesized, contradicting
the claim's "absent" case. -/
theorem C4_clip_repair_counterexample :
    clean_media_item c4_item = some c4_item ∧ clip_metadata_sound_info c4_item = none := by
  constructor
  · decide
  · decide

/-- C4 (amended).  The repair acts on `clips_metadata` as follows: an
absent `original_sound_info` stays absent; a present null or non-dict
one is replaced by the fully populated zero-valued default (whose
required keys, including `ig_artist` with `username` and `pk`, are all
present); a present dict-valued one is completed in place — all
required keys are present afterwards, every original binding survives
in key, and bindings other than `ig_artist` keep their values.  Items
reaching the metadata through the single- or double-nested clip path
are routed through exactly this repair (after timestamp
normalization). -/
theorem C4_clip_repair_amended :
    (∀ ms : VDict, ms.dlookup "original_sound_info" = none →
      (repairMetadata ms).dlookup "original_sound_info" = none) ∧
    (∀ (ms : VDict) (w : Value), ms.dlookup "original_sound_info" = some w → is_vdict w = false →
      (repairMetadata ms).dlookup "original_sound_info" = some defaultSoundInfo) ∧
    (∀ (ms si : VDict), ms.dlookup "original_sound_info" = some (.vdict si) →
      (repairMetadata ms).dlookup "original_sound_info" = some (.vdict (fixSoundInfo si))) ∧
    (∀ si : VDict,
      ((fixSoundInfo si).dlookup "audio_id").isSome = true ∧
      ((fixSoundInfo si).dlookup "original_audio_title").isSome = true ∧
      ((fixSoundInfo si).dlookup "progressive_download_url").isSome = true ∧
      ((fixSoundInfo si).dlookup "dash_manifest").isSome = true ∧
      ((fixSoundInfo si).dlookup "duration_in_ms").isSome = true ∧
      ((fixSoundInfo si).dlookup "is_explicit").isSome = true ∧
      ∃ a : VDict, (fixSoundInfo si).dlookup "ig_artist" = some (.vdict a) ∧
        (a.dlookup "username").isSome = true ∧ (a.dlookup "pk").isSome = true) ∧
    (∀ (si : VDict) (k : String) (v : Value), si.dlookup k = some v →
      ((fixSoundInfo si).dlookup k).isSome = true) ∧
    (∀ (si : VDict) (k : String) (v : Value), si.dlookup k = some v → k ≠ "ig_artist" →
      (fixSoundInfo si).dlookup k = some v) ∧
    (∀ ms : VDict,
      clean_media_item (.vdict (.cons "clip" (.vdict (.cons "clips_metadata" (.vdict ms) .nil)) .nil)) =
        some (.vdict (.cons "clip" (.vdict (.cons "clips_metadata"
          (.vdict (repairMetadata (normalize_timestamps_dict ms))) .nil)) .nil))) ∧
    (∀ ms : VDict,
      clean_media_item (.vdict (.cons "clip" (.vdict (.cons "clip"
          (.vdict (.cons "clips_metadata" (.vdict ms) .nil)) .nil)) .nil)) =
        some (.vdict (.cons "clip" (.vdict (.cons "clip" (.vdict (.cons "clips_metadata"
          (.vdict (repairMetadata (normalize_timestamps_dict ms))) .nil)) .nil)) .nil))) := by
  refine ⟨?_, ?_, ?_, fixSoundInfo_keys, ?_, ?_, ?_, ?_⟩
  · intro ms h
    rw [repairMetadata_dlookup_osi, h]
  · intro ms w h hw
    rw [repairMetadata_dlookup_osi, h]
    cases w with
    | vdict a => simp [is_vdict] at hw
    | vnull => rfl
    | vbool b => rfl
    | vint n => rfl
    | vstr s => rfl
    | vlist l => rfl
  · intro ms si h
    rw [repairMetadata_dlookup_osi, h]
  · intro si k v hkv
    have HA := artist_step_keys
      ((((((si.dsetdefault "audio_id" (Value.vstr "")).dsetdefault
          "original_audio_title" (Value.vstr "")).dsetdefault
          "progressive_download_url" (Value.vstr "")).dsetdefault
          "dash_manifest" (Value.vstr "")).dsetdefault
          "duration_in_ms" (Value.vint 0)).dsetdefault
          "is_explicit" (Value.vbool false))
    apply HA.1
    apply VDict.isSome_dlookup_dsetdefault
    apply VDict.isSome_dlookup_dsetdefault
    apply VDict.isSome_dlookup_dsetdefault
    apply VDict.isSome_dlookup_dsetdefault
    apply VDict.isSome_dlookup_dsetdefault
    apply VDict.isSome_dlookup_dsetdefault
    rw [hkv]
    rfl
  · intro si k v hkv hk
    have step := artist_step_dlookup_ne
      ((((((si.dsetdefault "audio_id" (Value.vstr "")).dsetdefault
          "original_audio_title" (Value.vstr "")).dsetdefault
          "progressive_download_url" (Value.vstr "")).dsetdefault
          "dash_manifest" (Value.vstr "")).dsetdefault
          "duration_in_ms" (Value.vint 0)).dsetdefault
          "is_explicit" (Value.vbool false)) hk
    refine Eq.trans step ?_
    exact dlookup_dsetdefault_of_some _ _ _
      (dlookup_dsetdefault_of_some _ _ _
        (dlookup_dsetdefault_of_some _ _ _
          (dlookup_dsetdefault_of_some _ _ _
            (dlookup_dsetdefault_of_some _ _ _
              (dlookup_dsetdefault_of_some _ _ _ hkv)))))
  · intro ms
    simp only [clean_media_item, normalize_timestamps, normalize_timestamps_dict,
      norm_entry_of_dict]
    rw [repairClips_dict_some _ (show VDict.dlookup _ "clip" = some (.vdict (.cons "clips_metadata" (.vdict (normalize_timestamps_dict ms)) .nil)) from by simp [VDict.dlookup])]
    rw [repairClipValue_dict_none _ (by simp [VDict.dlookup])]
    rw [repairAtTarget_dict_some _ (show VDict.dlookup _ "clips_metadata" = some (.vdict (normalize_timestamps_dict ms)) from by simp [VDict.dlookup])]
    simp [VDict.dset]
  · intro ms
    simp only [clean_media_item, normalize_timestamps, normalize_timestamps_dict,
      norm_entry_of_dict]
    rw [repairClips_dict_some _ (show VDict.dlookup _ "clip" = some (.vdict (.cons "clip" (.vdict (.cons "clips_metadata" (.vdict (normalize_timestamps_dict ms)) .nil)) .nil)) from by simp [VDict.dlookup])]
    rw [repairClipValue_dict_some _ (show VDict.dlookup _ "clip" = some (.vdict (.cons "clips_metadata" (.vdict (normalize_timestamps_dict ms)) .nil)) from by simp [VDict.dlookup])]
    rw [repairAtTarget_dict_some _ (show VDict.dlookup _ "clips_metadata" = some (.vdict (normalize_timestamps_dict ms)) from by simp [VDict.dlookup])]
    simp [VDict.dset]

/-- Witness for C4 (amended) at concrete metadata dicts. -/
theorem C4_clip_repair_amended_witness :
    (repairMetadata VDict.nil).dlookup "original_sound_info" = none ∧
    (repairMetadata (.cons "original_sound_info" Value.vnull .nil)).dlookup "original_sound_info" =
      some defaultSoundInfo ∧
    (repairMetadata (.cons "original_sound_info" (.vdict (.cons "audio_id" (.vstr "x") .nil)) .nil)).dlookup
      "original_sound_info" = some (.vdict (fixSoundInfo (.cons "audio_id" (.vstr "x") .nil))) ∧
    (fixSoundInfo (.cons "audio_id" (.vstr "x") .nil)).dlookup "audio_id" = some (.vstr "x") ∧
    clean_media_item (.vdict (.cons "clip" (.vdict (.cons "clips_metadata"
        (.vdict (.cons "original_sound_info" Value.vnull .nil)) .nil)) .nil)) =
      some (.vdict (.cons "clip" (.vdict (.cons "clips_metadata"
        (.vdict (repairMetadata (normalize_timestamps_dict
          (.cons "original_sound_info" Value.vnull .nil)))) .nil)) .nil)) :=
  ⟨C4_clip_repair_amended.1 VDict.nil rfl,
   C4_clip_repair_amended.2.1 (.cons "original_sound_info" Value.vnull .nil) Value.vnull rfl rfl,
   C4_clip_repair_amended.2.2.1 (.cons "original_sound_info" (.vdict (.cons "audio_id" (.vstr "x") .nil)) .nil)
     (.cons "audio_id" (.vstr "x") .nil) rfl,
   C4_clip_repair_amended.2.2.2.2.2.1 (.cons "audio_id" (.vstr "x") .nil) "audio_id" (.vstr "x")
     rfl (by decide),
   C4_clip_repair_amended.2.2.2.2.2.2.1 (.cons "original_sound_info" Value.vnull .nil)⟩

/- ----------------------------------------------------------------
   C5, C6: keyword-gated degradation for conversation listing
   ---------------------------------------------------------------- -/

theorem fallback_mem_tier2 (α : Type) (api : ConvApi α) :
    Ev.callDirectThreads 1 ∈ (get_conversations_fallback api).2 := by
  unfold get_conversations_fallback
  cases h1 : api.directThreads 1 with
  | ok t => simp
  | error e1 =>
      cases h2 : api.directThreads 0 with
      | ok t => simp
      | error e2 =>
          cases h3 : get_conversations_safe_api api with
          | ok t => simp
          | error e3 => simp

/-- C5.  If the tier-1 typed listing fails with an error matching the
schema-keyword set (e.g. containing "ValidationError",
case-insensitively), the retriever attempts tier-2 (preview 1) before
giving up; if the error matches no keyword (e.g. "NetworkTimeout"),
the failure is propagated at once as a `ConversationError` with no
further upstream call. -/
theorem C5_tiered_degradation :
    (∀ (α : Type) (api : ConvApi α) (lim : Int) (e : String),
      api.directThreads lim = .error e → is_media_error_conversations e = true →
      Ev.callDirectThreads 1 ∈ (get_conversations api lim).2) ∧
    (∀ (α : Type) (api : ConvApi α) (lim : Int) (e : String),
      api.directThreads lim = .error e → is_media_error_conversations e = false →
      (get_conversations api lim).1 = .error ("Failed to fetch conversations: " ++ e) ∧
      (get_conversations api lim).2 = [Ev.rateLimit, Ev.callDirectThreads lim]) ∧
    is_media_error_conversations "ValidationError" = true ∧
    is_media_error_conversations "NetworkTimeout" = false := by
  refine ⟨?_, ?_, by decide, by decide⟩
  · intro α api lim e h hm
    unfold get_conversations
    rw [h]
    simp only [hm, if_true]
    split <;> simp [fallback_mem_tier2]
  · intro α api lim e h hm
    unfold get_conversations
    rw [h]
    simp [hm]

/-- Witness for C5: a tier-1 schema failure leads to a preview-1 call;
a "NetworkTimeout" failure propagates with a single upstream call. -/
theorem C5_tiered_degradation_witness :
    Ev.callDirectThreads 1 ∈ (get_conversations convApiTier2 5).2 ∧
    (get_conversations convApiTimeout 5).1 =
      .error ("Failed to fetch conversations: " ++ "NetworkTimeout") ∧
    (get_conversations convApiTimeout 5).2 = [Ev.rateLimit, Ev.callDirectThreads 5] :=
  ⟨C5_tiered_degradation.1 Nat convApiTier2 5
      "ValidationError: 1 validation error for DirectThread" rfl (by decide),
   (C5_tiered_degradation.2.1 Nat convApiTimeout 5 "NetworkTimeout" rfl (by decide)).1,
   (C5_tiered_degradation.2.1 Nat convApiTimeout 5 "NetworkTimeout" rfl (by decide)).2⟩

/-- C6 (counterexample).  "input should be a valid dictionary" is
classified as a recoverable media-schema error by the conversation
path but not by the message path: the message keyword set is not a
superset of the conversation one. -/
theorem C6_keyword_superset_counterexample :
    is_media_error_conversations "input should be a valid dictionary" = true ∧
    is_media_error_messages "input should be a valid dictionary" = false := by
  exact ⟨by decide, by decide⟩

/-- C6 (amended).  Except for the keyword "input should be a valid
dictionary", the message retriever's keyword set covers the
conversation retriever's: every error message classified as
recoverable by the conversation path whose lowered text does not
contain that one keyword is also classified as recoverable by the
message path. -/
theorem C6_keyword_superset_amended (e : String)
    (h : is_media_error_conversations e = true)
    (hnot : containsSub "input should be a valid dictionary".toList (lowerChars e) = false) :
    is_media_error_messages e = true := by
  simp only [is_media_error_conversations, matches_keyword, conversation_error_keywords,
    List.any_cons, List.any_nil, Bool.or_eq_true, Bool.or_false] at h
  simp only [is_media_error_messages, matches_keyword, message_error_keywords,
    List.any_cons, List.any_nil, Bool.or_eq_true, Bool.or_false]
  rcases h with h | h | h | h | h
  · exact Or.inl h
  · exact Or.inr (Or.inl h)
  · exact Or.inr (Or.inr (Or.inl h))
  · exact Or.inr (Or.inr (Or.inr (Or.inr (Or.inr (Or.inr (Or.inl h))))))
  · rw [hnot] at h
    exact absurd h (by simp)

/-- Witness for C6 (amended) at the message "ValidationError". -/
theorem C6_keyword_superset_amended_witness :
    is_media_error_messages "ValidationError" = true :=
  C6_keyword_superset_amended "ValidationError" (by decide) (by decide)

/- ----------------------------------------------------------------
   C9 (counterexample part) and C10
   ---------------------------------------------------------------- -/

/-- C9 (counterexample).  If every upstream request had to be admitted
and recorded by the rate limiter, a trace could never hold more
upstream requests than limiter passes; but a tier-1 schema failure
followed by the tier-2 fallback issues two upstream calls under the
single admission of the decorated entry point. -/
theorem C9_rate_limiter_counterexample :
    countUpstream (get_conversations convApiTier2 5).2 = 2 ∧
    countRateLimit (get_conversations convApiTier2 5).2 = 1 ∧
    ¬ countUpstream (get_conversations convApiTier2 5).2 ≤
        countRateLimit (get_conversations convApiTier2 5).2 := by
  exact ⟨by decide, by decide, by decide⟩

/-- C10.  When the typed test call for `min(10, count)` messages
succeeds with an empty list, `fetch_messages` raises
`MessageFetchError`: the internally raised "No messages returned from
test fetch" matches no schema keyword, so the handler re-wraps it
instead of falling back, and the empty list is never returned through
the typed path. -/
theorem C10_empty_test_raises (β : Type) (api : MsgApi β) (count : Int)
    (h : api.directMessages (min 10 count) = .ok []) :
    (fetch_messages api count).1 =
      .error "Failed to fetch messages: No messages returned from test fetch" := by
  unfold fetch_messages
  rw [h]
  have hm : is_media_error_messages "No messages returned from test fetch" = false := by decide
  simp [fetch_messages_handler, hm]

/-- Witness for C10 at an upstream whose typed call returns `[]`. -/
theorem C10_empty_test_raises_witness :
    (fetch_messages emptyMsgApi 50).1 =
      .error "Failed to fetch messages: No messages returned from test fetch" :=
  C10_empty_test_raises Nat emptyMsgApi 50 rfl

/- ----------------------------------------------------------------
   Safe batch loop: unfolding, induction scaffold
   ---------------------------------------------------------------- -/

theorem safe_batch_loop_next {β : Type} (api : MsgApi β) (count : Int) {s s' : BState β}
    (h : safe_batch_step api count s = .next s') :
    safe_batch_loop api count s = safe_batch_loop api count s' := by
  conv_lhs => rw [safe_batch_loop]
  split
  · rename_i out hd
    rw [hd] at h
    exact absurd h (by simp)
  · rename_i t hn
    rw [hn] at h
    cases h
    rfl

theorem safe_batch_loop_done {β : Type} (api : MsgApi β) (count : Int) {s : BState β}
    {out : List β × List Ev} (h : safe_batch_step api count s = .done out) :
    safe_batch_loop api count s = out := by
  conv_lhs => rw [safe_batch_loop]
  split
  · rename_i o hd
    rw [hd] at h
    cases h
    rfl
  · rename_i t hn
    rw [hn] at h
    exact absurd h (by simp)

theorem safe_batch_loop_eq {β : Type} (api : MsgApi β) (count : Int) (s : BState β) :
    safe_batch_loop api count s =
      match safe_batch_step api count s with
      | .done out => out
      | .next s' => safe_batch_loop api count s' := by
  cases h : safe_batch_step api count s with
  | done out => exact safe_batch_loop_done api count h
  | next s' => exact safe_batch_loop_next api count h

theorem safe_batch_step_decreases {β : Type} {api : MsgApi β} {count : Int}
    {s s' : BState β} (h : safe_batch_step api count s = .next s') :
    bmeasure s' < bmeasure s := by
  simp only [safe_batch_step] at h
  split at h
  case isFalse => exact absurd h (by simp)
  case isTrue hg =>
    obtain ⟨hrem, -, hfails⟩ := hg
    split at h
    case h_1 =>
      cases h
      simp only [bmeasure]
      omega
    case h_2 =>
      split at h
      case h_1 =>
        cases h
        simp only [bmeasure]
        omega
      case h_2 => exact absurd h (by simp)
      case h_3 =>
        split at h
        case isTrue => exact absurd h (by simp)
        case isFalse =>
          split at h
          case isTrue =>
            cases h
            simp only [bmeasure]
            omega
          case isFalse hb =>
            rename_i items heq hne
            have hlen : 0 < (List.filterMap (clean_and_extract api) items).length := by
              have hnil : ¬ (List.filterMap (clean_and_extract api) items) = [] := by
                simpa [List.isEmpty_iff] using hb
              exact List.length_pos.mpr hnil
            split at h
            case h_1 =>
              cases h
              simp only [bmeasure]
              omega
            case h_2 =>
              cases h
              simp only [bmeasure]
              omega

/-- Induction principle following the recursion of the safe batch
loop. -/
theorem safe_batch_loop_induct {β : Type} (api : MsgApi β) (count : Int)
    (P : BState β → Prop) (Q : List β × List Ev → Prop)
    (hnext : ∀ s s', P s → safe_batch_step api count s = .next s' → P s')
    (hdone : ∀ s out, P s → safe_batch_step api count s = .done out → Q out)
    (s : BState β) (hs : P s) : Q (safe_batch_loop api count s) := by
  cases h : safe_batch_step api count s with
  | done out =>
      rw [safe_batch_loop_done api count h]
      exact hdone s out hs h
  | next s' =>
      rw [safe_batch_loop_next api count h]
      exact safe_batch_loop_induct api count P Q hnext hdone s' (hnext s s' hs h)
termination_by bmeasure s
decreasing_by exact safe_batch_step_decreases h

/-- A continuing step extends the trace by exactly one raw batch
request event. -/
theorem safe_batch_step_next_trace {β : Type} {api : MsgApi β} {count : Int}
    {s s' : BState β} (h : safe_batch_step api count s = .next s') :
    ∃ n : Nat, s'.trace = s.trace ++ [Ev.callThreadItems n] := by
  simp only [safe_batch_step] at h
  split at h
  case isFalse => exact absurd h (by simp)
  case isTrue hg =>
    split at h
    case h_1 =>
      cases h
      exact ⟨_, rfl⟩
    case h_2 =>
      split at h
      case h_1 =>
        cases h
        exact ⟨_, rfl⟩
      case h_2 => exact absurd h (by simp)
      case h_3 =>
        split at h
        case isTrue => exact absurd h (by simp)
        case isFalse =>
          split at h
          case isTrue =>
            cases h
            exact ⟨_, rfl⟩
          case isFalse =>
            split at h
            case h_1 =>
              cases h
              exact ⟨_, rfl⟩
            case h_2 =>
              cases h
              exact ⟨_, rfl⟩

/-- A terminating step returns the current accumulator, with the trace
extended by at most the final raw request event. -/
theorem safe_batch_step_done {β : Type} {api : MsgApi β} {count : Int}
    {s : BState β} {out : List β × List Ev} (h : safe_batch_step api count s = .done out) :
    out.1 = s.acc ∧
      (out.2 = s.trace ∨ ∃ n : Nat, out.2 = s.trace ++ [Ev.callThreadItems n]) := by
  simp only [safe_batch_step] at h
  split at h
  case isFalse =>
    cases h
    exact ⟨rfl, Or.inl rfl⟩
  case isTrue hg =>
    split at h
    case h_1 => exact absurd h (by simp)
    case h_2 =>
      split at h
      case h_1 => exact absurd h (by simp)
      case h_2 =>
        cases h
        exact ⟨rfl, Or.inr ⟨_, rfl⟩⟩
      case h_3 =>
        split at h
        case isTrue =>
          cases h
          exact ⟨rfl, Or.inr ⟨_, rfl⟩⟩
        case isFalse =>
          split at h
          case isTrue => exact absurd h (by simp)
          case isFalse =>
            split at h
            case h_1 => exact absurd h (by simp)
            case h_2 => exact absurd h (by simp)

theorem countRateLimit_append (a b : List Ev) :
    countRateLimit (a ++ b) = countRateLimit a + countRateLimit b := by
  simp [countRateLimit, List.filter_append]

/-- The safe batch loop only appends raw request events: its result
trace is the initial trace plus limiter-free events. -/
theorem safe_batch_loop_trace {β : Type} (api : MsgApi β) (count : Int) (s : BState β) :
    ∃ ext : List Ev, (safe_batch_loop api count s).2 = s.trace ++ ext ∧
      countRateLimit ext = 0 := by
  refine safe_batch_loop_induct api count
    (fun t => ∃ e : List Ev, t.trace = s.trace ++ e ∧ countRateLimit e = 0)
    (fun out => ∃ e : List Ev, out.2 = s.trace ++ e ∧ countRateLimit e = 0)
    ?_ ?_ s ⟨[], by simp, rfl⟩
  · intro t t' ⟨e, he, hc⟩ hstep
    obtain ⟨n, hn⟩ := safe_batch_step_next_trace hstep
    refine ⟨e ++ [Ev.callThreadItems n], ?_, ?_⟩
    · rw [hn, he, List.append_assoc]
    · rw [countRateLimit_append, hc]
      rfl
  · intro t out ⟨e, he, hc⟩ hstep
    obtain ⟨-, htr⟩ := safe_batch_step_done hstep
    cases htr with
    | inl h0 => exact ⟨e, by rw [h0, he], hc⟩
    | inr h1 =>
        obtain ⟨n, hn⟩ := h1
        refine ⟨e ++ [Ev.callThreadItems n], ?_, ?_⟩
        · rw [hn, he, List.append_assoc]
        · rw [countRateLimit_append, hc]
          rfl

/-- The fuelled evaluator agrees with the loop whenever it returns. -/
theorem safe_batch_run_correct {β : Type} (api : MsgApi β) (count : Int) :
    ∀ (fuel : Nat) (s : BState β) (out : List β × List Ev),
      safe_batch_run api count fuel s = some out →
      safe_batch_loop api count s = out
  | 0, s, out, h => by simp [safe_batch_run] at h
  | fuel + 1, s, out, h => by
      simp only [safe_batch_run] at h
      cases hs : safe_batch_step api count s with
      | done o =>
          rw [hs] at h
          simp only [Option.some.injEq] at h
          rw [safe_batch_loop_done api count hs, h]
      | next s' =>
          rw [hs] at h
          rw [safe_batch_loop_next api count hs]
          exact safe_batch_run_correct api count fuel s' out h

/- ----------------------------------------------------------------
   C7: the safe batch count bound
   ---------------------------------------------------------------- -/

/-- C7 (amended).  Whenever the raw endpoint honors the requested
limit — each returned item list is no longer than the requested batch
size — the safe batch method returns at most `count` messages (at
most `max count 0`: none for non-positive counts). -/
theorem C7_safe_batch_bounded (β : Type) (api : MsgApi β) (count : Int) (tr : List Ev)
    (hlim : ∀ (n : Nat) (c : Option Value) (v : Value) (items : List Value),
      api.threadItems n c = .ok v → thread_items v = .ok (some items) → items.length ≤ n) :
    ((fetch_messages_safe_batch api count tr).1.length : Int) ≤ max count 0 := by
  unfold fetch_messages_safe_batch
  refine safe_batch_loop_induct api count
    (fun s => (s.acc.length : Int) + s.remaining = count ∧ (s.acc.length : Int) ≤ max count 0)
    (fun out => ((out.1.length : Int) ≤ max count 0))
    ?_ ?_ _ ⟨by simp, by simp⟩
  · intro s s' hP h
    simp only [safe_batch_step] at h
    split at h
    case isFalse => exact absurd h (by simp)
    case isTrue hg =>
      obtain ⟨hrem, hlen, hfails⟩ := hg
      split at h
      case h_1 =>
        cases h
        exact hP
      case h_2 =>
        rename_i result hres
        split at h
        case h_1 =>
          cases h
          exact hP
        case h_2 => exact absurd h (by simp)
        case h_3 =>
          rename_i items hitems
          split at h
          case isTrue => exact absurd h (by simp)
          case isFalse =>
            have hbound : (List.filterMap (clean_and_extract api) items).length ≤
                min s.batchSize s.remaining.toNat :=
              le_trans (List.length_filterMap_le _ _) (hlim _ _ _ _ hres hitems)
            split at h
            case isTrue =>
              cases h
              exact hP
            case isFalse =>
              obtain ⟨hPe, hPl⟩ := hP
              split at h
              case h_1 =>
                cases h
                refine ⟨?_, ?_⟩
                · simp only [List.length_append]
                  push_cast
                  push_cast at hPe
                  omega
                · simp only [List.length_append]
                  have hc : (0 : Int) ≤ count := by
                    push_cast at hPe
                    omega
                  rw [max_eq_left hc]
                  push_cast
                  push_cast at hPe
                  omega
              case h_2 =>
                cases h
                refine ⟨?_, ?_⟩
                · simp only [List.length_append]
                  push_cast
                  push_cast at hPe
                  omega
                · simp only [List.length_append]
                  have hc : (0 : Int) ≤ count := by
                    push_cast at hPe
                    omega
                  rw [max_eq_left hc]
                  push_cast
                  push_cast at hPe
                  omega
  · intro s out hP h
    rw [(safe_batch_step_done h).1]
    exact hP.2

/-- C7 (counterexample).  With the mocked endpoint returning 20 items
per call, of which every 3rd fails typed parsing, and `count = 10`,
the safe batch method returns 14 messages — more than `count`: the
code accumulates the whole oversized batch without truncating it to
the requested limit. -/
theorem C7_safe_batch_counterexample :
    (fetch_messages_safe_batch api20 10 []).1.length = 14 ∧
    ¬ (fetch_messages_safe_batch api20 10 []).1.length ≤ 10 := by
  have e : fetch_messages_safe_batch api20 10 [] =
      (((List.range 20).filter (fun i => ¬ (i + 1) % 3 = 0)).map mkItem,
        [Ev.callThreadItems 10]) :=
    safe_batch_run_correct api20 10 2 _ _ (by decide)
  rw [e]
  exact ⟨by decide, by decide⟩

/-- Witness for C7 (amended) at a limit-honoring endpoint (one whose
requests all fail, vacuously honoring the limit). -/
theorem C7_safe_batch_bounded_witness :
    ((fetch_messages_safe_batch apiAllFail 10 []).1.length : Int) ≤ max 10 0 :=
  C7_safe_batch_bounded Value apiAllFail 10 []
    (fun n c v items h1 _ => by simp [apiAllFail] at h1)

/- ----------------------------------------------------------------
   C8: totality of the safe batch method
   ---------------------------------------------------------------- -/

/-- C8.  The safe batch method absorbs every upstream failure mode and
returns whatever was accumulated: an endpoint whose raw requests
always raise yields `[]` (after three absorbed consecutive failures);
an endpoint whose items never parse yields `[]`; a partially
successful endpoint yields the accumulated messages — possibly fewer
than `count` — with no error escaping. -/
theorem C8_safe_batch_total :
    (∀ (β : Type) (api : MsgApi β) (count : Int) (tr : List Ev),
      (∀ (n : Nat) (c : Option Value), ∃ e : String, api.threadItems n c = .error e) →
      (fetch_messages_safe_batch api count tr).1 = []) ∧
    (∀ (β : Type) (api : MsgApi β) (count : Int) (tr : List Ev),
      (∀ v : Value, api.extractMessage v = none) →
      (fetch_messages_safe_batch api count tr).1 = []) ∧
    (fetch_messages_safe_batch apiPartial 10 []).1.length = 2 := by
  refine ⟨?_, ?_, ?_⟩
  · intro β api count tr hfail
    unfold fetch_messages_safe_batch
    refine safe_batch_loop_induct api count (fun s => s.acc = []) (fun out => out.1 = [])
      ?_ ?_ _ rfl
    · intro s s' hP h
      simp only [safe_batch_step] at h
      split at h
      case isFalse => exact absurd h (by simp)
      case isTrue =>
        split at h
        case h_1 =>
          cases h
          exact hP
        case h_2 =>
          rename_i result hres
          obtain ⟨e, he⟩ := hfail (min s.batchSize s.remaining.toNat) (cursorArg s.cursor)
          rw [he] at hres
          cases hres
    · intro s out hP h
      rw [(safe_batch_step_done h).1]
      exact hP
  · intro β api count tr hnone
    unfold fetch_messages_safe_batch
    refine safe_batch_loop_induct api count (fun s => s.acc = []) (fun out => out.1 = [])
      ?_ ?_ _ rfl
    · intro s s' hP h
      have hbatch : ∀ items : List Value, List.filterMap (clean_and_extract api) items = [] := by
        intro items
        refine List.filterMap_eq_nil_iff.mpr ?_
        intro v hv
        unfold clean_and_extract
        cases clean_media_item v with
        | none => rfl
        | some c => simp [hnone]
      simp only [safe_batch_step] at h
      split at h
      case isFalse => exact absurd h (by simp)
      case isTrue =>
        split at h
        case h_1 =>
          cases h
          exact hP
        case h_2 =>
          split at h
          case h_1 =>
            cases h
            exact hP
          case h_2 => exact absurd h (by simp)
          case h_3 =>
            rename_i items hitems
            split at h
            case isTrue => exact absurd h (by simp)
            case isFalse =>
              split at h
              case isTrue =>
                cases h
                exact hP
              case isFalse hb =>
                rw [hbatch items] at hb
                simp at hb
    · intro s out hP h
      rw [(safe_batch_step_done h).1]
      exact hP
  · have e : fetch_messages_safe_batch apiPartial 10 [] =
        ([mkItem 0, mkItem 100], [Ev.callThreadItems 10, Ev.callThreadItems 8]) :=
      safe_batch_run_correct apiPartial 10 2 _ _ (by decide)
    rw [e]
    decide

/- ----------------------------------------------------------------
   C9 (amended): one limiter pass per public invocation
   ---------------------------------------------------------------- -/

theorem fallback_countRL (α : Type) (api : ConvApi α) :
    countRateLimit (get_conversations_fallback api).2 = 0 := by
  unfold get_conversations_fallback
  cases h1 : api.directThreads 1 with
  | ok t => simp [countRateLimit, Ev.isRateLimit]
  | error e1 =>
      cases h2 : api.directThreads 0 with
      | ok t => simp [countRateLimit, Ev.isRateLimit]
      | error e2 =>
          cases h3 : get_conversations_safe_api api with
          | ok t => simp [countRateLimit, Ev.isRateLimit]
          | error e3 => simp [countRateLimit, Ev.isRateLimit]

theorem handler_trace (β : Type) (api : MsgApi β) (count : Int) (tr : List Ev) (e : String)
    (h : tr.head? = some Ev.rateLimit) (hc : countRateLimit tr = 1) :
    (fetch_messages_handler api count tr e).2.head? = some Ev.rateLimit ∧
    countRateLimit (fetch_messages_handler api count tr e).2 = 1 := by
  unfold fetch_messages_handler
  split
  · obtain ⟨ext, hext, hrl⟩ := safe_batch_loop_trace api count
      ⟨[], tr, none, count, 0, 20⟩
    have hext' : (fetch_messages_safe_batch api count tr).2 = tr ++ ext := hext
    constructor
    · show (fetch_messages_safe_batch api count tr).2.head? = some Ev.rateLimit
      rw [hext']
      cases tr with
      | nil => cases h
      | cons a tl =>
          simp only [List.head?] at h ⊢
          simpa using h
    · show countRateLimit (fetch_messages_safe_batch api count tr).2 = 1
      rw [hext', countRateLimit_append, hrl, hc]
  · exact ⟨h, hc⟩

/-- C9 (amended).  Each public retriever invocation passes through the
shared rate limiter exactly once, at entry, before any upstream call;
the inner fallback and safe-batch upstream calls of the same
invocation are issued under that single admission, without further
limiter passes. -/
theorem C9_rate_limiter_amended :
    (∀ (α : Type) (api : ConvApi α) (lim : Int),
      (get_conversations api lim).2.head? = some Ev.rateLimit ∧
      countRateLimit (get_conversations api lim).2 = 1) ∧
    (∀ (β : Type) (api : MsgApi β) (count : Int),
      (fetch_messages api count).2.head? = some Ev.rateLimit ∧
      countRateLimit (fetch_messages api count).2 = 1) := by
  constructor
  · intro α api lim
    unfold get_conversations
    cases hdt : api.directThreads lim with
    | ok t =>
        exact ⟨rfl, by simp [countRateLimit, Ev.isRateLimit]⟩
    | error e =>
        dsimp only
        split
        · split
          · refine ⟨rfl, ?_⟩
            rw [countRateLimit_append, fallback_countRL]
            simp [countRateLimit, Ev.isRateLimit]
          · refine ⟨rfl, ?_⟩
            rw [countRateLimit_append, fallback_countRL]
            simp [countRateLimit, Ev.isRateLimit]
        · exact ⟨rfl, by simp [countRateLimit, Ev.isRateLimit]⟩
  · intro β api count
    unfold fetch_messages
    cases hdm : api.directMessages (min 10 count) with
    | ok test =>
        dsimp only
        split
        · exact handler_trace β api count _ _ rfl (by simp [countRateLimit, Ev.isRateLimit])
        · split
          · exact ⟨rfl, by simp [countRateLimit, Ev.isRateLimit]⟩
          · cases hdm2 : api.directMessages count with
            | ok messages =>
                exact ⟨rfl, by simp [countRateLimit, Ev.isRateLimit]⟩
            | error e2 =>
                exact handler_trace β api count _ _ rfl
                  (by simp [countRateLimit, Ev.isRateLimit])
    | error e =>
        exact handler_trace β api count _ _ rfl (by simp [countRateLimit, Ev.isRateLimit])

/-- Witness for C8: the always-raising endpoint yields `[]`, and so
does an endpoint whose items never parse. -/
theorem C8_safe_batch_total_witness :
    (fetch_messages_safe_batch apiAllFail 10 []).1 = [] ∧
    (fetch_messages_safe_batch apiNoParse 10 []).1 = [] :=
  ⟨C8_safe_batch_total.1 Value apiAllFail 10 [] (fun n c => ⟨"boom", rfl⟩),
   C8_safe_batch_total.2.1 Value apiNoParse 10 [] (fun v => rfl)⟩
